import Mathlib

/-!
Verification of the mp4e streaming MP4 muxer (Rust crate `mp4e`).

The development shallowly embeds the sources:
  * `src/util.rs`   - `BitReader` (Exp-Golomb decoding) and the AAC sample-rate table;
  * `src/nalu.rs`   - the Annex-B NAL-unit splitter;
  * `src/mp4e.rs`   - the muxer state machine and its box serializer (the
                      implementation exported by `lib.rs`);
  * `src/boxes.rs`  - the standalone box serializer (a second implementation
                      present in the repository but not referenced by `lib.rs`);
                      only the functions needed by the claims are embedded.

Bytes are modelled as `Nat` (every byte produced by the model is `< 256`);
machine-integer wrap-around is written explicitly as `% 2^32` where the Rust
code uses `u32` arithmetic that can overflow.  Rust panics (out-of-bounds
indexing, `unwrap` on `None`, division by zero) are modelled as an explicit
crash flag / `Option` so that no behaviour is silently invented.
-/

set_option maxRecDepth 10000

namespace Mp4e

/-! ## `src/util.rs` : `BitReader`

The Rust reader holds a byte slice `data` and a bit position `pos`.
`get_bit` returns 0 without advancing once `pos >= data.len() * 8`,
otherwise it returns bit `7 - pos % 8` of byte `pos / 8` and advances. -/

/-- `BitReader::get_bit`: result bit and new position. -/
def getBit (data : List Nat) (pos : Nat) : Nat × Nat :=
  if 8 * data.length ≤ pos then (0, pos)
  else (((data.getD (pos / 8) 0) >>> (7 - pos % 8)) &&& 1, pos + 1)

/-- The leading-zero loop of `ue_bits`: repeatedly `get_bit`; a zero bit
increments `leading_zeros` and returns early (modelled as `none`) once
`leading_zeros >= bits`; a one bit stops the loop (`some (leading_zeros, pos)`).
Mirrors the `while self.get_bit() == 0` loop of `src/util.rs`; the structural
counter `fuel` stands for `bits - leading_zeros`, which the early return
strictly decreases (at `fuel = 0` we have `bits <= lz`, so a zero bit takes
the `leading_zeros >= bits` early return). -/
def ueLoopGo (data : List Nat) (bits : Nat) : Nat → Nat → Nat → Option (Nat × Nat)
  | 0, pos, lz =>
    let r := getBit data pos
    if r.1 = 0 then none else some (lz, r.2)
  | fuel + 1, pos, lz =>
    let r := getBit data pos
    if r.1 = 0 then
      if bits ≤ lz + 1 then none
      else ueLoopGo data bits fuel r.2 (lz + 1)
    else some (lz, r.2)

/-- The loop entered as in the source, with `leading_zeros = lz`. -/
def ueLoop (data : List Nat) (bits pos lz : Nat) : Option (Nat × Nat) :=
  ueLoopGo data bits (bits - lz) pos lz

/-- The suffix-reading loop of `ue_bits`: `value = (value << 1) | get_bit()`
repeated `n` times; `value` is a `u32`, hence the `% 2 ^ 32`. -/
def readBits (data : List Nat) (pos n acc : Nat) : Nat × Nat :=
  match n with
  | 0 => (acc, pos)
  | n + 1 =>
    let r := getBit data pos
    readBits data r.2 n ((acc * 2 + r.1) % 2 ^ 32)

/-- Wrapping `u32` decrement (`value - 1` in Rust release semantics). -/
def sub1u32 (x : Nat) : Nat := (x + (2 ^ 32 - 1)) % 2 ^ 32

/-- `BitReader::ue_bits(bits)` started at bit position `pos`.
Returns the decoded value (the Rust method also advances the reader;
the final position is irrelevant to the claims). -/
def ueBits (data : List Nat) (pos bits : Nat) : Nat :=
  match ueLoop data bits pos 0 with
  | none => 0
  | some (lz, pos') =>
    if lz = 0 then 0
    else sub1u32 (readBits data pos' lz 1).1

/-! Specification-side definitions for claim C4, written from the spec text:
count leading zero bits (capped at `max_prefix`); on reaching the cap return
0; with `count = 0` return 0; otherwise read `count` further bits as the
suffix and return `((1 <<< count) ||| suffix) - 1`. `get_bit` past
end-of-stream yields 0, which `bitAt` builds in. -/

/-- The bit stream as the spec sees it: bit `i`, or 0 past end-of-stream. -/
def bitAt (data : List Nat) (i : Nat) : Nat := (getBit data i).1

/-- Number of leading zero bits starting at `pos`, capped at `fuel`. -/
def leadZeros (data : List Nat) (pos fuel : Nat) : Nat :=
  match fuel with
  | 0 => 0
  | f + 1 => if bitAt data pos = 1 then 0 else 1 + leadZeros data (pos + 1) f

/-- MSB-first value of the `n` bits starting at `pos`. -/
def suffixBits (data : List Nat) (pos n : Nat) : Nat :=
  match n with
  | 0 => 0
  | n + 1 => bitAt data pos * 2 ^ n + suffixBits data (pos + 1) n

/-- The algorithm exactly as the specification words it (`u32` arithmetic). -/
def ueSpec (data : List Nat) (pos bits : Nat) : Nat :=
  let count := leadZeros data pos bits
  if count = bits then 0
  else if count = 0 then 0
  else sub1u32 (((1 <<< count) ||| suffixBits data (pos + count + 1) count) % 2 ^ 32)

/-! ### Lemmas about the bit reader -/

theorem getBit_fst_le_one (data : List Nat) (pos : Nat) : (getBit data pos).1 ≤ 1 := by
  unfold getBit
  split
  · exact Nat.zero_le 1
  · exact Nat.and_le_right

theorem getBit_snd_of_lt (data : List Nat) (pos : Nat) (h : pos < 8 * data.length) :
    (getBit data pos).2 = pos + 1 := by
  unfold getBit
  rw [if_neg (by omega)]

theorem getBit_of_ge (data : List Nat) (pos : Nat) (h : 8 * data.length ≤ pos) :
    getBit data pos = (0, pos) := by
  unfold getBit
  rw [if_pos h]

theorem bitAt_of_ge (data : List Nat) (pos : Nat) (h : 8 * data.length ≤ pos) :
    bitAt data pos = 0 := by
  unfold bitAt
  rw [getBit_of_ge data pos h]

theorem bitAt_eq_one_lt (data : List Nat) (pos : Nat) (h : bitAt data pos = 1) :
    pos < 8 * data.length := by
  by_contra hge
  rw [bitAt_of_ge data pos (by omega)] at h
  exact absurd h (by decide)

theorem leadZeros_of_ge (data : List Nat) (pos fuel : Nat) (h : 8 * data.length ≤ pos) :
    leadZeros data pos fuel = fuel := by
  induction fuel generalizing pos with
  | zero => rfl
  | succ f ih =>
    unfold leadZeros
    rw [if_neg (by rw [bitAt_of_ge data pos h]; decide)]
    rw [ih (pos + 1) (by omega)]
    omega

theorem leadZeros_le (data : List Nat) (pos fuel : Nat) : leadZeros data pos fuel ≤ fuel := by
  induction fuel generalizing pos with
  | zero => exact Nat.le_refl 0
  | succ f ih =>
    unfold leadZeros
    split
    · exact Nat.zero_le _
    · have := ih (pos + 1)
      omega

theorem suffixBits_of_ge (data : List Nat) (pos n : Nat) (h : 8 * data.length ≤ pos) :
    suffixBits data pos n = 0 := by
  induction n generalizing pos with
  | zero => rfl
  | succ m ih =>
    unfold suffixBits
    rw [bitAt_of_ge data pos h, ih (pos + 1) (by omega)]
    omega

theorem suffixBits_lt (data : List Nat) (pos n : Nat) : suffixBits data pos n < 2 ^ n := by
  induction n generalizing pos with
  | zero => simp [suffixBits]
  | succ m ih =>
    unfold suffixBits
    have hb := getBit_fst_le_one data pos
    have := ih (pos + 1)
    have h2 : bitAt data pos * 2 ^ m ≤ 2 ^ m := by
      unfold bitAt
      calc (getBit data pos).1 * 2 ^ m ≤ 1 * 2 ^ m :=
            Nat.mul_le_mul_right _ hb
        _ = 2 ^ m := Nat.one_mul _
    calc bitAt data pos * 2 ^ m + suffixBits data (pos + 1) m
        < bitAt data pos * 2 ^ m + 2 ^ m := by omega
      _ ≤ 2 ^ m + 2 ^ m := by omega
      _ = 2 ^ (m + 1) := by ring

theorem mod_mul_add_mod (x y z M : Nat) : (x % M * y + z) % M = (x * y + z) % M := by
  rw [Nat.add_mod, Nat.mod_mul_mod, ← Nat.add_mod]

/-- Value computed by `readBits`: shifted accumulator plus suffix, mod `2^32`. -/
theorem readBits_eq (data : List Nat) (n : Nat) :
    ∀ pos acc, acc < 2 ^ 32 → (readBits data pos n acc).1 =
      (acc * 2 ^ n + suffixBits data pos n) % 2 ^ 32 := by
  induction n with
  | zero =>
    intro pos acc hacc
    simp [readBits, suffixBits]
    exact (Nat.mod_eq_of_lt hacc).symm
  | succ m ih =>
    intro pos acc _
    rw [readBits]
    by_cases hpos : 8 * data.length ≤ pos
    · rw [getBit_of_ge data pos hpos]
      rw [ih pos _ (Nat.mod_lt _ (by norm_num))]
      rw [suffixBits, bitAt_of_ge data pos hpos,
        suffixBits_of_ge data (pos + 1) m (by omega),
        suffixBits_of_ge data pos m hpos]
      rw [mod_mul_add_mod]
      congr 1
      ring
    · have h2 : (getBit data pos).2 = pos + 1 := getBit_snd_of_lt data pos (by omega)
      rw [h2, ih (pos + 1) _ (Nat.mod_lt _ (by norm_num))]
      rw [suffixBits]
      unfold bitAt
      rw [mod_mul_add_mod]
      congr 1
      ring

/-- For a suffix strictly below `2 ^ c` the bitwise-or with `2 ^ c`
is plain addition. -/
theorem two_pow_lor_eq_add : ∀ c s : Nat, s < 2 ^ c → 2 ^ c ||| s = 2 ^ c + s := by
  intro c
  induction c with
  | zero =>
    intro s hs
    interval_cases s
    decide
  | succ c ih =>
    intro s hs
    have hdec : Nat.bit (decide (s % 2 = 1)) (s >>> 1) = s :=
      Nat.bit_decide_mod_two_eq_one_shiftRight_one s
    have hpow : (2 : Nat) ^ (c + 1) = Nat.bit false (2 ^ c) := by
      simp [Nat.bit, Nat.pow_succ]
      ring
    have hhalf : s >>> 1 < 2 ^ c := by
      rw [Nat.shiftRight_one]
      omega
    calc 2 ^ (c + 1) ||| s
        = Nat.bit false (2 ^ c) ||| Nat.bit (decide (s % 2 = 1)) (s >>> 1) := by
          rw [hpow, hdec]
      _ = Nat.bit (false || decide (s % 2 = 1)) (2 ^ c ||| s >>> 1) :=
          Nat.lor_bit false (2 ^ c) (decide (s % 2 = 1)) (s >>> 1)
      _ = Nat.bit (decide (s % 2 = 1)) (2 ^ c + s >>> 1) := by
          rw [Bool.false_or, ih _ hhalf]
      _ = 2 ^ (c + 1) + s := by
          rw [Nat.bit_val, Nat.shiftRight_one]
          have := Nat.div_add_mod s 2
          rcases Nat.mod_two_eq_zero_or_one s with h | h <;>
            simp [h, Nat.pow_succ] <;> omega

/-- Characterization of the leading-zero loop in terms of `leadZeros`. -/
theorem ueLoop_char (data : List Nat) (bits : Nat) :
    ∀ fuel pos lz, 1 ≤ fuel → lz + fuel = bits →
      ueLoopGo data bits fuel pos lz =
        if leadZeros data pos fuel = fuel then none
        else some (lz + leadZeros data pos fuel, pos + leadZeros data pos fuel + 1) := by
  intro fuel
  induction fuel with
  | zero => omega
  | succ f ih =>
    intro pos lz _ hbits
    rw [ueLoopGo]
    by_cases hbit : (getBit data pos).1 = 0
    · have hb : bitAt data pos ≠ 1 := by
        unfold bitAt
        omega
      have hlead : leadZeros data pos (f + 1) = 1 + leadZeros data (pos + 1) f := by
        rw [leadZeros, if_neg hb]
      by_cases hf : f = 0
      · subst hf
        rw [if_pos hbit, if_pos (by omega)]
        rw [hlead, if_pos (by simp [leadZeros])]
      · rw [if_pos hbit, if_neg (by omega)]
        by_cases hpos : 8 * data.length ≤ pos
        · have h2 : (getBit data pos).2 = pos := by rw [getBit_of_ge data pos hpos]
          rw [h2, ih pos (lz + 1) (by omega) (by omega)]
          rw [if_pos (leadZeros_of_ge data pos f (by omega))]
          rw [hlead, leadZeros_of_ge data (pos + 1) f (by omega), if_pos (by omega)]
        · have h2 : (getBit data pos).2 = pos + 1 := getBit_snd_of_lt data pos (by omega)
          rw [h2, ih (pos + 1) (lz + 1) (by omega) (by omega), hlead]
          by_cases hc : leadZeros data (pos + 1) f = f
          · rw [if_pos hc, if_pos (by omega)]
          · rw [if_neg hc, if_neg (by omega)]
            congr 2 <;> omega
    · have hb1 : (getBit data pos).1 = 1 := by
        have := getBit_fst_le_one data pos
        omega
      have hblt : pos < 8 * data.length := bitAt_eq_one_lt data pos hb1
      rw [if_neg hbit, getBit_snd_of_lt data pos hblt]
      have hb1' : bitAt data pos = 1 := hb1
      have hlead : leadZeros data pos (f + 1) = 0 := by
        rw [leadZeros, if_pos hb1']
      rw [hlead, if_neg (by omega)]
      simp

/-- **C4.** `BitReader::ue_bits(max_prefix)` implements exactly the specified
algorithm for every input byte slice, start position and `max_prefix`
(count leading zero bits; on reaching `max_prefix` return 0; with zero count
return 0; otherwise read `count` further bits and return
`((1 << count) | suffix) - 1` in `u32` arithmetic), and `get_bit` returns 0
once the cursor is past end-of-stream. -/
theorem C4_ue_bits_spec (data : List Nat) (pos bits : Nat) :
    ueBits data pos bits = ueSpec data pos bits ∧
      (8 * data.length ≤ pos → (getBit data pos).1 = 0) := by
  refine ⟨?_, fun h => by rw [getBit_of_ge data pos h]⟩
  by_cases hb : bits = 0
  · subst hb
    rw [ueBits, ueSpec, ueLoop, Nat.sub_zero, ueLoopGo]
    have hlz : leadZeros data pos 0 = 0 := rfl
    by_cases hbit : (getBit data pos).1 = 0
    · simp [hbit, hlz]
    · simp [hbit, hlz]
  · have hchar := ueLoop_char data bits bits pos 0 (by omega) (by omega)
    rw [ueBits, ueLoop, Nat.sub_zero, hchar, ueSpec]
    by_cases hcb : leadZeros data pos bits = bits
    · rw [if_pos hcb, if_pos hcb]
    · rw [if_neg hcb, if_neg hcb]
      by_cases hc0 : leadZeros data pos bits = 0
      · simp [hc0]
      · simp only [Nat.zero_add, if_neg hc0]
        rw [readBits_eq data _ _ 1 (by norm_num), Nat.one_mul]
        congr 2
        rw [Nat.shiftLeft_eq, Nat.one_mul,
          two_pow_lor_eq_add _ _ (suffixBits_lt data _ _)]

/-- Witness for C4: concrete evaluation discharging the end-of-stream
hypothesis.  Data `[0x28]`, position 1, cap 3: bits are 0,1,0,1,...:
one leading zero, then suffix bit 0, so `ue = (0b10 | 0) - 1 = 1`. -/
theorem C4_ue_bits_spec_witness :
    ueBits [0x28] 1 3 = ueSpec [0x28] 1 3 ∧ (getBit [0x28] 9).1 = 0 :=
  ⟨(C4_ue_bits_spec [0x28] 1 3).1, (C4_ue_bits_spec [0x28] 9 3).2 (by decide)⟩

/-! ## `src/nalu.rs` : the Annex-B NAL splitter

`split_nalu` is an iterator.  At position 0 it skips a leading 4-byte
(`00 00 00 01`) or 3-byte (`00 00 01`) start code (a buffer with no leading
start code is yielded whole); from a positive position it scans forward for
the next start code (requiring at least one byte to exist after it, per the
bounds `end + 3 < len` / `end + 4 < len` in the source), yields the slice up
to it, and restarts on the suffix beginning at that start code.
`splitNaluSC` returns each yielded NAL unit paired with the length of the
start code consumed before it (0 for the no-start-code case). -/

/-- Length of the start code recognised at the head of the buffer
(the position-0 branch of `NaluIterator::next`): 4, 3, or 0 for none. -/
def startCodeLen (d : List Nat) : Nat :=
  if d.take 4 = [0, 0, 0, 1] then 4
  else if d.take 3 = [0, 0, 1] then 3
  else 0

/-- The scan-loop break test at the suffix `data[end..]`: a 3-byte start code
with one byte after it (`end + 3 < len`), or a 4-byte start code with one
byte after it (`end + 4 < len`). -/
def isDelim (x : List Nat) : Bool :=
  (4 ≤ x.length && x.take 3 == [0, 0, 1]) || (5 ≤ x.length && x.take 4 == [0, 0, 0, 1])

/-- Offset of the first start-code delimiter in `x` (the `while end < len`
scan), or `x.length` when none is found. -/
def findOff (x : List Nat) : Nat :=
  match x with
  | [] => 0
  | _ :: rest => if isDelim x then 0 else 1 + findOff rest

theorem findOff_le (x : List Nat) : findOff x ≤ x.length := by
  induction x with
  | nil => exact Nat.le_refl 0
  | cons a rest ih =>
    rw [findOff]
    split
    · exact Nat.zero_le _
    · simp only [List.length_cons]
      omega

theorem findOff_delim (x : List Nat) (h : findOff x < x.length) :
    isDelim (x.drop (findOff x)) = true := by
  induction x with
  | nil => simp at h
  | cons a rest ih =>
    rw [findOff] at h ⊢
    by_cases hd : isDelim (a :: rest)
    · simpa [hd]
    · rw [if_neg hd] at h ⊢
      have : findOff rest < rest.length := by
        simp [List.length_cons] at h
        omega
      simpa [Nat.add_comm 1 (findOff rest)] using ih this

theorem startCodeLen_cases (d : List Nat) :
    startCodeLen d = 0 ∨ startCodeLen d = 3 ∨ startCodeLen d = 4 := by
  unfold startCodeLen
  split
  · exact Or.inr (Or.inr rfl)
  · split
    · exact Or.inr (Or.inl rfl)
    · exact Or.inl rfl

/-- `split_nalu` as a function from the buffer to the list of
(start-code length, NAL unit) pairs, in yield order.  Each iteration restarts
on the strictly shorter suffix beginning at the found delimiter; the
structural counter `fuel` bounds the number of restarts (any `fuel` at least
the buffer length gives the iterator's behaviour, see `splitNaluGo_fuel`).
At `fuel = 0` the buffer is empty or a bare start code and nothing is
yielded, matching the iterator. -/
def splitNaluGo (fuel : Nat) (d : List Nat) : List (Nat × List Nat) :=
  if startCodeLen d = 0 then
    -- no leading start code: the whole (nonempty) buffer is a single NAL
    if d = [] then [] else [(0, d)]
  else
    if d.drop (startCodeLen d) = [] then []    -- skip consumed the buffer
    else
      if findOff (d.drop (startCodeLen d)) < (d.drop (startCodeLen d)).length then
        (startCodeLen d,
          (d.drop (startCodeLen d)).take (findOff (d.drop (startCodeLen d)))) ::
          (match fuel with
           | 0 => []
           | f + 1 => splitNaluGo f ((d.drop (startCodeLen d)).drop
               (findOff (d.drop (startCodeLen d)))))
      else [(startCodeLen d, d.drop (startCodeLen d))]

/-- The `split_nalu` iterator, fully consumed. -/
def splitNaluSC (d : List Nat) : List (Nat × List Nat) :=
  splitNaluGo d.length d

/-- The NAL units alone, as the muxer consumes them. -/
def splitNalu (d : List Nat) : List (List Nat) :=
  (splitNaluSC d).map Prod.snd

/-- Reassembly: concatenate consumed start code followed by NAL unit,
in yield order. -/
def concatSC (l : List (Nat × List Nat)) : List Nat :=
  match l with
  | [] => []
  | p :: rest => (if p.1 = 4 then [0, 0, 0, 1] else if p.1 = 3 then [0, 0, 1] else []) ++
      p.2 ++ concatSC rest

theorem startCodeLen_take3 (d : List Nat) (h : startCodeLen d = 3) :
    d.take 3 = [0, 0, 1] := by
  unfold startCodeLen at h
  by_cases h4 : d.take 4 = [0, 0, 0, 1]
  · rw [if_pos h4] at h
    omega
  · rw [if_neg h4] at h
    by_cases h3 : d.take 3 = [0, 0, 1]
    · exact h3
    · rw [if_neg h3] at h
      omega

theorem startCodeLen_take4 (d : List Nat) (h : startCodeLen d = 4) :
    d.take 4 = [0, 0, 0, 1] := by
  unfold startCodeLen at h
  by_cases h4 : d.take 4 = [0, 0, 0, 1]
  · exact h4
  · rw [if_neg h4] at h
    by_cases h3 : d.take 3 = [0, 0, 1]
    · rw [if_pos h3] at h
      omega
    · rw [if_neg h3] at h
      omega

/-- A found delimiter is a start code recognised by the position-0 skip,
with at least one byte after it. -/
theorem isDelim_startCode (x : List Nat) (h : isDelim x = true) :
    startCodeLen x ≠ 0 ∧ startCodeLen x < x.length := by
  simp only [isDelim, Bool.or_eq_true, Bool.and_eq_true, decide_eq_true_eq,
    beq_iff_eq] at h
  rcases h with ⟨hlen, htake⟩ | ⟨hlen, htake⟩
  · have h4 : x.take 4 ≠ [0, 0, 0, 1] := by
      intro hcon
      have : x.take 3 = [0, 0, 0] := by
        have := List.take_take 3 4 x
        simp at this
        rw [← this, hcon]
        rfl
      rw [htake] at this
      simp at this
    have hk : startCodeLen x = 3 := by
      unfold startCodeLen
      rw [if_neg h4, if_pos htake]
    exact ⟨by omega, by omega⟩
  · have hk : startCodeLen x = 4 := by
      unfold startCodeLen
      rw [if_pos htake]
    exact ⟨by omega, by omega⟩

/-- The consumed start-code bytes are exactly the skipped head of the buffer. -/
theorem scBytes_append_drop (d : List Nat) (h0 : startCodeLen d ≠ 0) :
    (if startCodeLen d = 4 then [0, 0, 0, 1]
     else if startCodeLen d = 3 then [0, 0, 1] else []) ++
      d.drop (startCodeLen d) = d := by
  rcases startCodeLen_cases d with h | h | h
  · exact absurd h h0
  · rw [h, if_neg (by omega), if_pos rfl, ← startCodeLen_take3 d h]
    exact List.take_append_drop 3 d
  · rw [h, if_pos rfl, ← startCodeLen_take4 d h]
    exact List.take_append_drop 4 d

/-- Reassembly with any sufficient fuel. -/
theorem splitNaluGo_concat : ∀ fuel d, d.length ≤ fuel → startCodeLen d ≠ 0 →
    startCodeLen d < d.length → concatSC (splitNaluGo fuel d) = d := by
  intro fuel
  induction fuel with
  | zero =>
    intro d hn h0 _
    have : d = [] := List.eq_nil_of_length_eq_zero (by omega)
    subst this
    exact absurd rfl h0
  | succ f ih =>
    intro d hn h0 h1
    rw [splitNaluGo, if_neg h0]
    have hk3 : 3 ≤ startCodeLen d := by
      rcases startCodeLen_cases d with h | h | h <;> omega
    have hrest : ¬(d.drop (startCodeLen d) = []) := by
      intro hcon
      have := congrArg List.length hcon
      simp only [List.length_drop, List.length_nil] at this
      omega
    rw [if_neg hrest]
    by_cases hoff : findOff (d.drop (startCodeLen d)) < (d.drop (startCodeLen d)).length
    · rw [if_pos hoff, concatSC]
      have hdelim := findOff_delim _ hoff
      have hsc := isDelim_startCode _ hdelim
      have hlen : ((d.drop (startCodeLen d)).drop
          (findOff (d.drop (startCodeLen d)))).length ≤ f := by
        simp only [List.length_drop]
        omega
      dsimp only
      rw [ih _ hlen hsc.1 hsc.2, List.append_assoc, List.take_append_drop]
      exact scBytes_append_drop d h0
    · rw [if_neg hoff, concatSC, concatSC]
      dsimp only
      rw [List.append_nil]
      exact scBytes_append_drop d h0

/-- Closed counterexample input for C8: a buffer that is exactly a bare
3-byte start code. -/
def bareStartCode : List Nat := [0, 0, 1]

/-- **C8 (counterexample).** The claim fails as stated: the valid Annex-B
buffer `00 00 01` (it begins with a 3-byte start code) yields an empty
NAL-unit sequence, so no choice of start codes can reassemble the nonempty
input from the yielded units. -/
theorem C8_counterexample :
    splitNaluSC bareStartCode = [] ∧ bareStartCode ≠ [] := by
  constructor
  · decide
  · decide

/-- **C8 (amended).** For every Annex-B buffer that begins with a 3- or
4-byte start code *and has at least one byte after that start code*, the
yielded sequence is finite (it is a `List`), each yielded slice omits its
start code, and concatenating consumed-start-code ++ NAL unit over the
yielded units reproduces the input buffer exactly. -/
theorem C8_splitNalu_roundtrip (d : List Nat) (h0 : startCodeLen d ≠ 0)
    (h1 : startCodeLen d < d.length) : concatSC (splitNaluSC d) = d :=
  splitNaluGo_concat d.length d (Nat.le_refl _) h0 h1

/-- Witness for C8 (amended): the doc-comment example stream of
`src/nalu.rs` reassembles exactly. -/
theorem C8_splitNalu_roundtrip_witness :
    concatSC (splitNaluSC [0, 0, 0, 1, 10, 20, 30, 0, 0, 1, 40, 50, 0, 0, 0, 1, 60, 70, 80]) =
      [0, 0, 0, 1, 10, 20, 30, 0, 0, 1, 40, 50, 0, 0, 0, 1, 60, 70, 80] :=
  C8_splitNalu_roundtrip _ (by decide) (by decide)

/-! ## Data model (`src/mp4e.rs` structs) and byte-level helpers -/

/-- `SampleType` of `src/mp4e.rs`. -/
inductive SampleType where
  | Default
  | RandomAccess
  | Continuation
deriving DecidableEq

/-- `Codec` of `src/mp4e.rs`. -/
inductive Codec where
  | AVC | HEVC | AACLC | AACMAIN | AACSSR | AACLTP | HEAAC | HEAACV2 | OPUS
deriving DecidableEq

/-- `TrackType` of `src/mp4e.rs`. -/
inductive TrackType where
  | Video
  | Audio
deriving DecidableEq

/-- `SampleInfo` of `src/mp4e.rs` (`random_access`, `offset: u64`,
`sample_size: u32`, `sample_delta: u32`; this struct has no
composition-offset field). -/
structure SampleInfo where
  random_access : Bool
  offset : Nat
  sample_size : Nat
  sample_delta : Nat
deriving DecidableEq

/-- `Track` of `src/mp4e.rs`. -/
structure Track where
  id : Nat
  duration : Nat
  timescale : Nat
  sample_rate : Nat
  channel_count : Nat
  width : Nat
  height : Nat
  codec : Codec
  vps : Option (List Nat)
  sps : Option (List Nat)
  pps : Option (List Nat)
  dsi : Option (List Nat)
  samples : List SampleInfo
  track_type : TrackType
deriving DecidableEq

/-- The byte sink (`Writer: Write + Seek`): contents plus stream position. -/
structure Sink where
  content : List Nat
  pos : Nat
deriving DecidableEq

/-- Overwrite/extend `c` with `bs` at offset `p` (zero-filling a gap, as
`Cursor<Vec<u8>>` does when writing past the end). -/
def writeAt (c : List Nat) (p : Nat) (bs : List Nat) : List Nat :=
  c.take p ++ List.replicate (p - c.length) 0 ++ bs ++ c.drop (p + bs.length)

def Sink.writeAll (s : Sink) (bs : List Nat) : Sink :=
  ⟨writeAt s.content s.pos bs, s.pos + bs.length⟩

def Sink.seekTo (s : Sink) (p : Nat) : Sink := ⟨s.content, p⟩

/-- The muxer struct `Mp4e` of `src/mp4e.rs` together with its sink. -/
structure MState where
  fragment : Bool
  init_header : Bool
  write_pos : Nat
  create_time : Nat
  fregment_id : Nat
  duration : Nat
  track_ids : Nat
  write_moov : Bool
  send_first_random_access : Bool
  language : List Nat
  sink : Sink
  video_track : Option Track
  audio_track : Option Track
deriving DecidableEq

def u32lim : Nat := 2 ^ 32

/-- Big-endian `u16` bytes. -/
def be16 (n : Nat) : List Nat := [n / 2 ^ 8 % 256, n % 256]

/-- Big-endian `u32` bytes (equals the bytes of `n % 2^32`). -/
def be32 (n : Nat) : List Nat :=
  [n / 2 ^ 24 % 256, n / 2 ^ 16 % 256, n / 2 ^ 8 % 256, n % 256]

/-- Big-endian `u64` bytes (equals the bytes of `n % 2^64`). -/
def be64 (n : Nat) : List Nat :=
  [n / 2 ^ 56 % 256, n / 2 ^ 48 % 256, n / 2 ^ 40 % 256, n / 2 ^ 32 % 256,
   n / 2 ^ 24 % 256, n / 2 ^ 16 % 256, n / 2 ^ 8 % 256, n % 256]

/-- Net effect of the `mp4_box!` macro on an in-memory cursor written
sequentially: a big-endian `u32` size (backpatched to cover size, type and
body), the 4-byte type, then the body. -/
def mp4Box (typ : List Nat) (body : List Nat) : List Nat :=
  be32 ((8 + body.length) % u32lim) ++ typ ++ body

/-! ## `stts` run-length encoding (`write_stts` of both serializers)

The loop walks the samples with a counter `cnt` starting at 1, and emits a
`(cnt, delta)` pair whenever the run ends (`i == len - 1` or
`delta[i] != delta[i+1]`), resetting `cnt`.  `sttsGo` is that loop over the
list of deltas. -/

def sttsGo (cnt : Nat) : List Nat → List (Nat × Nat)
  | [] => []
  | [d] => [(cnt, d)]
  | d1 :: d2 :: rest =>
    if d1 ≠ d2 then (cnt, d1) :: sttsGo 1 (d2 :: rest)
    else sttsGo (cnt + 1) (d2 :: rest)

/-- The `(sample_count, sample_delta)` entries written by `write_stts`. -/
def sttsEntries (samples : List SampleInfo) : List (Nat × Nat) :=
  sttsGo 1 (samples.map (·.sample_delta))

/-- Expansion of run-length entries back into the delta sequence. -/
def sttsExpand : List (Nat × Nat) → List Nat
  | [] => []
  | p :: rest => List.replicate p.1 p.2 ++ sttsExpand rest

theorem sttsGo_expand : ∀ (l : List Nat) (d cnt : Nat), 1 ≤ cnt →
    sttsExpand (sttsGo cnt (d :: l)) = List.replicate (cnt - 1) d ++ (d :: l) := by
  intro l
  induction l with
  | nil =>
    intro d cnt hc
    show sttsExpand [(cnt, d)] = _
    rw [sttsExpand, sttsExpand, List.append_nil]
    have : cnt = (cnt - 1) + 1 := by omega
    rw [this, List.replicate_succ' (cnt - 1) d]
    simp
  | cons d2 rest ih =>
    intro d cnt hc
    rw [sttsGo]
    by_cases hd : d = d2
    · subst hd
      rw [if_neg (by simp)]
      rw [ih d (cnt + 1) (by omega)]
      have h1 : cnt + 1 - 1 = (cnt - 1) + 1 := by omega
      rw [h1, List.replicate_succ' (cnt - 1) d]
      simp
    · rw [if_pos (by simpa using hd), sttsExpand, ih d2 1 (by omega)]
      have h1 : List.replicate cnt d = List.replicate (cnt - 1) d ++ [d] := by
        conv_lhs => rw [show cnt = (cnt - 1) + 1 by omega]
        exact List.replicate_succ' (cnt - 1) d
      rw [h1]
      simp

theorem sttsGo_count : ∀ (l : List Nat) (d cnt : Nat),
    ((sttsGo cnt (d :: l)).map Prod.fst).sum = l.length + cnt := by
  intro l
  induction l with
  | nil =>
    intro d cnt
    show ([(cnt, d)].map Prod.fst).sum = 0 + cnt
    simp
  | cons d2 rest ih =>
    intro d cnt
    rw [sttsGo]
    by_cases hd : d = d2
    · subst hd
      rw [if_neg (by simp), ih d (cnt + 1)]
      simp
      omega
    · rw [if_pos (by simpa using hd)]
      rw [List.map_cons, List.sum_cons, ih d2 1]
      simp
      omega

/-- **C6.** For every sample list, the `stts` run-length entries satisfy:
the written `sample_count` fields sum to the number of samples, and
expanding each `(count, delta)` pair `count` times reproduces the original
`sample_delta` sequence in order. -/
theorem C6_stts_runlength (samples : List SampleInfo) :
    ((sttsEntries samples).map Prod.fst).sum = samples.length ∧
      sttsExpand (sttsEntries samples) = samples.map (·.sample_delta) := by
  unfold sttsEntries
  cases hm : samples.map (·.sample_delta) with
  | nil =>
    have hs : samples = [] := by
      cases samples with
      | nil => rfl
      | cons a l => simp at hm
    subst hs
    exact ⟨rfl, rfl⟩
  | cons d l =>
    constructor
    · rw [sttsGo_count l d 1]
      have := congrArg List.length hm
      simp at this
      omega
    · rw [sttsGo_expand l d 1 (by omega)]
      simp

/-! ## Box serializers of `src/mp4e.rs`

Functional net effect of each `write_*` method on a fresh in-memory cursor.
Functions that can hit a Rust panic (slice `sps[1..4]` on a short SPS;
integer division by `track.timescale / 1000 = 0`; `video_track.unwrap()`)
return `Option`, with `none` for the panic. -/

/-- `write_stts`: version/flags, backpatched entry count, then the
run-length entries. -/
def writeSttsB (samples : List SampleInfo) : List Nat :=
  mp4Box [0x73, 0x74, 0x74, 0x73]
    ([0, 0, 0, 0] ++ be32 (sttsEntries samples).length ++
      ((sttsEntries samples).map (fun p => be32 p.1 ++ be32 p.2)).flatten)

/-- The 1-based random-access indices written by `write_stss`
(`i as u32 + 1` for each sample with `random_access`). -/
def stssIdxBytes (samples : List SampleInfo) : List Nat :=
  (samples.enum.map (fun p =>
    if p.2.random_access then be32 (p.1 % u32lim + 1) else [])).flatten

/-- `write_stss` of `src/mp4e.rs`.  The source saves `entry_point` right
after the version/flags (offset 12 of the box), writes the indices
immediately (reserving no room for an entry count), then seeks to
`entry_point + 12` (offset 24 of the box) and writes the count there —
overwriting the fourth index when there are at least four random-access
samples, or landing beyond the box (those bytes are dropped or overwritten
by the next sequential write, hence the truncation to the box length). -/
def writeStssB (samples : List SampleInfo) : List Nat :=
  let box := mp4Box [0x73, 0x74, 0x73, 0x73] ([0, 0, 0, 0] ++ stssIdxBytes samples)
  (writeAt box 24 (be32 ((samples.filter (·.random_access)).length % u32lim))).take
    box.length

/-- `write_stss` of `src/boxes.rs` (the corrected serializer): the entry
count is reserved at offset 12 and backpatched there. -/
def writeStssBoxesB (samples : List SampleInfo) : List Nat :=
  mp4Box [0x73, 0x74, 0x73, 0x73]
    ([0, 0, 0, 0] ++ be32 ((samples.filter (·.random_access)).length % u32lim) ++
      stssIdxBytes samples)

/-- `write_stsz`. -/
def writeStszB (samples : List SampleInfo) : List Nat :=
  mp4Box [0x73, 0x74, 0x73, 0x7a]
    ([0, 0, 0, 0] ++ [0, 0, 0, 0] ++ be32 (samples.length % u32lim) ++
      (samples.map (fun s => be32 s.sample_size)).flatten)

/-- `write_stsc`. -/
def writeStscB (fragment : Bool) : List Nat :=
  mp4Box [0x73, 0x74, 0x73, 0x63]
    ([0, 0, 0, 0] ++
      (if fragment then [0, 0, 0, 0]
       else [0, 0, 0, 1] ++ [0, 0, 0, 1] ++ [0, 0, 0, 1] ++ [0, 0, 0, 1]))

/-- `write_stco`. -/
def writeStcoB (samples : List SampleInfo) : List Nat :=
  mp4Box [0x73, 0x74, 0x63, 0x6f]
    ([0, 0, 0, 0] ++ be32 (samples.length % u32lim) ++
      (samples.map (fun s => be32 (s.offset % u32lim))).flatten)

/-- `write_co64`. -/
def writeCo64B (samples : List SampleInfo) : List Nat :=
  mp4Box [0x63, 0x6f, 0x36, 0x34]
    ([0, 0, 0, 0] ++ be32 (samples.length % u32lim) ++
      (samples.map (fun s => be64 s.offset)).flatten)

/-- `write_url` / `write_dref` / `write_dinf`. -/
def writeDinfB : List Nat :=
  mp4Box [0x64, 0x69, 0x6e, 0x66]
    (mp4Box [0x64, 0x72, 0x65, 0x66]
      ([0, 0, 0, 0] ++ [0, 0, 0, 1] ++ mp4Box [0x75, 0x72, 0x6c, 0x20] [0, 0, 0, 1]))

/-- The two OD length encoders of `write_esds` (closures `od_size_of_size`
and `write_od_len`); the loop subtracts `0x7f` per emitted `0xff`
continuation byte, so `size` itself bounds the iteration count. -/
def odLenGo : Nat → Nat → List Nat
  | 0, size => [size % 256]
  | f + 1, size => if 0x7f < size then 0xff :: odLenGo f (size - 0x7f) else [size % 256]

def odLenBytes (size : Nat) : List Nat := odLenGo size size

/-- `write_esds` (no panic paths). -/
def writeEsdsB (channel_count : Nat) (dsi : Option (List Nat)) : List Nat :=
  mp4Box [0x65, 0x73, 0x64, 0x73]
    ([0, 0, 0, 0] ++
      (match dsi with
       | none => []
       | some d =>
         let dsi_bytes := d.length
         let dsi_size_size := (odLenBytes dsi_bytes).length
         let dcd_bytes := dsi_bytes + dsi_size_size + 1 + (1 + 1 + 3 + 4 + 4)
         let dcd_size_size := (odLenBytes dcd_bytes).length
         let esd_bytes := dcd_bytes + dcd_size_size + 1 + 3
         [0x03] ++ odLenBytes esd_bytes ++ [0, 0, 0] ++
         [0x04] ++ odLenBytes dcd_bytes ++ [0x40] ++ [5 <<< 2] ++ [0x00] ++
         be16 (channel_count * 6144 % u32lim / 8) ++ List.replicate 8 0 ++
         [0x05] ++ odLenBytes dsi_bytes ++ d))

/-- `write_mp4a`. -/
def writeMp4aB (t : Track) : List Nat :=
  mp4Box [0x6d, 0x70, 0x34, 0x61]
    ([0, 0, 0, 0] ++ [0, 0] ++ [0, 1] ++
      (if t.track_type = TrackType.Audio then
        List.replicate 8 0 ++ be16 t.channel_count ++ [0, 0x10] ++ [0, 0, 0, 0] ++
        be32 (t.sample_rate * 2 ^ 16 % u32lim) ++ writeEsdsB t.channel_count t.dsi
       else []))

/-- `write_dops`. -/
def writeDopsB (t : Track) : List Nat :=
  mp4Box [0x64, 0x6f, 0x70, 0x73]
    ([0x00] ++ be16 t.channel_count ++ [0, 0] ++ be32 t.sample_rate ++ [0, 0] ++ [0x00])

/-- `write_opus`. -/
def writeOpusB (t : Track) : List Nat :=
  mp4Box [0x6f, 0x70, 0x75, 0x73]
    ([0, 0, 0, 0] ++ [0, 0] ++ [0, 1] ++
      (if t.track_type = TrackType.Audio then
        List.replicate 8 0 ++ be16 t.channel_count ++ [0, 0x10] ++ [0, 0, 0, 0] ++
        be32 (t.sample_rate * 2 ^ 16 % u32lim) ++ writeDopsB t
       else []))

/-- One parameter-set array of `write_hvcc`. -/
def hvccArr (ps : Option (List Nat)) : List Nat :=
  match ps with
  | some p => [0x00, 0x01] ++ be16 p.length ++ p
  | none => [0x00, 0x00]

/-- `write_hvcc`. -/
def writeHvccB (t : Track) : List Nat :=
  mp4Box [0x68, 0x76, 0x63, 0x43]
    ([0x01] ++ [0x01] ++ be32 0x60000000 ++ [0, 0] ++ [0, 0, 0, 0] ++ [0] ++
     be16 0xf000 ++ [0xfc] ++ [0xfc] ++ [0xf8] ++ [0xf8] ++ [0, 0] ++ [0x03] ++ [0x03] ++
     [(1 <<< 7) ||| (32 &&& 0x3f)] ++ hvccArr t.vps ++
     [(1 <<< 7) ||| (33 &&& 0x3f)] ++ hvccArr t.sps ++
     [(1 <<< 7) ||| (34 &&& 0x3f)] ++ hvccArr t.pps)

/-- `write_avcc`; the slice `sps[1..4]` panics when the captured SPS is
shorter than 4 bytes. -/
def writeAvccB (t : Track) : Option (List Nat) := do
  let spsPart ← match t.sps with
    | some s =>
      if s.length < 4 then none
      else some ((s.take 4).drop 1 ++ [255] ++ [0xe0 ||| 1] ++ be16 s.length ++ s)
    | none => some []
  let ppsPart := match t.pps with
    | some p => [1] ++ be16 p.length ++ p
    | none => []
  some (mp4Box [0x61, 0x76, 0x63, 0x43] ([0x01] ++ spsPart ++ ppsPart))

/-- The common visual-sample-entry prefix of `write_avc1` / `write_hvc1`. -/
def visualEntryBody (t : Track) : List Nat :=
  be16 t.width ++ be16 t.height ++ be32 0x00480000 ++ be32 0x00480000 ++
  [0, 0, 0, 0] ++ [0, 1] ++ List.replicate 32 0 ++ [0, 0x18] ++ [0xff, 0xff]

/-- `write_avc1`. -/
def writeAvc1B (t : Track) : Option (List Nat) := do
  let tail ← if t.track_type = TrackType.Video then do
      let avcc ← writeAvccB t
      pure (visualEntryBody t ++ avcc)
    else pure []
  pure (mp4Box [0x61, 0x76, 0x63, 0x31]
    (List.replicate 6 0 ++ [0, 1] ++ List.replicate 16 0 ++ tail))

/-- `write_hvc1`. -/
def writeHvc1B (t : Track) : List Nat :=
  mp4Box [0x68, 0x76, 0x63, 0x31]
    (List.replicate 6 0 ++ [0, 1] ++ List.replicate 16 0 ++
      (if t.track_type = TrackType.Video then visualEntryBody t ++ writeHvccB t
       else []))

/-- `write_stsd`. -/
def writeStsdB (t : Track) : Option (List Nat) := do
  let entry ← if t.track_type = TrackType.Video then
      match t.codec with
      | Codec.HEVC => some (writeHvc1B t)
      | Codec.AVC => writeAvc1B t
      | _ => some []
    else
      match t.codec with
      | Codec.AACLC | Codec.AACMAIN | Codec.AACSSR | Codec.AACLTP
      | Codec.HEAAC | Codec.HEAACV2 => some (writeMp4aB t)
      | Codec.OPUS => some (writeOpusB t)
      | _ => some []
  pure (mp4Box [0x73, 0x74, 0x73, 0x64] ([0, 0, 0, 0] ++ [0, 0, 0, 1] ++ entry))

/-- `write_stbl` of `src/mp4e.rs`: note that `stss` is written for every
video track, with no fragmented-mode gate. -/
def writeStblB (fragment : Bool) (t : Track) : Option (List Nat) := do
  let stsd ← writeStsdB t
  pure (mp4Box [0x73, 0x74, 0x62, 0x6c]
    (stsd ++ writeSttsB t.samples ++ writeStscB fragment ++ writeStszB t.samples ++
      (match t.samples.getLast? with
       | none => []
       | some last =>
         if 0xffffffff < last.offset then writeCo64B t.samples
         else writeStcoB t.samples) ++
      (if t.track_type = TrackType.Video then writeStssB t.samples else [])))

/-- `write_vmhd` / `write_smhd`. -/
def writeMhdB (t : Track) : List Nat :=
  match t.track_type with
  | TrackType.Video =>
    mp4Box [0x76, 0x6d, 0x68, 0x64] ([0, 0, 0, 1] ++ List.replicate 8 0)
  | TrackType.Audio =>
    mp4Box [0x73, 0x6d, 0x68, 0x64] ([0, 0, 0, 0] ++ [0, 0, 0, 0])

/-- `write_minf`. -/
def writeMinfB (fragment : Bool) (t : Track) : Option (List Nat) := do
  let stbl ← writeStblB fragment t
  pure (mp4Box [0x6d, 0x69, 0x6e, 0x66] (writeMhdB t ++ writeDinfB ++ stbl))

/-- `write_hdlr`. -/
def writeHdlrB (t : Track) : List Nat :=
  mp4Box [0x68, 0x64, 0x6c, 0x72]
    ([0, 0, 0, 0] ++ [0, 0, 0, 0] ++
      (if t.track_type = TrackType.Video then
        [0x76, 0x69, 0x64, 0x65] ++ List.replicate 12 0 ++
        [0x56, 0x69, 0x64, 0x65, 0x6f, 0x48, 0x61, 0x6e, 0x64, 0x6c, 0x65, 0x72, 0x00]
       else
        [0x73, 0x6f, 0x75, 0x6e] ++ List.replicate 12 0 ++
        [0x53, 0x6f, 0x75, 0x6e, 0x64, 0x48, 0x61, 0x6e, 0x64, 0x6c, 0x65, 0x72, 0x00]))

/-- `write_mdhd` (language code from the three 5-bit characters). -/
def writeMdhdB (language : List Nat) (t : Track) : List Nat :=
  mp4Box [0x6d, 0x64, 0x68, 0x64]
    ([0, 0, 0, 0] ++ [0, 0, 0, 0] ++ [0, 0, 0, 0] ++ be32 t.timescale ++
      be32 t.duration ++
      be16 (((language.getD 0 0 &&& 31) <<< 10) |||
            ((language.getD 1 0 &&& 31) <<< 5) ||| (language.getD 2 0 &&& 31)) ++
      [0, 0])

/-- `write_mdia`. -/
def writeMdiaB (fragment : Bool) (language : List Nat) (t : Track) :
    Option (List Nat) := do
  let minf ← writeMinfB fragment t
  pure (mp4Box [0x6d, 0x64, 0x69, 0x61] (writeMdhdB language t ++ writeHdlrB t ++ minf))

/-- `write_tkhd`; `track.duration / (track.timescale / 1000)` panics when
the track timescale is below 1000 (division by zero). -/
def writeTkhdB (t : Track) : Option (List Nat) :=
  if t.timescale / 1000 = 0 then none
  else some (mp4Box [0x74, 0x6b, 0x68, 0x64]
    (be32 7 ++ [0, 0, 0, 0] ++ [0, 0, 0, 0] ++ be32 t.id ++ [0, 0, 0, 0] ++
     be32 (t.duration / (t.timescale / 1000)) ++ List.replicate 12 0 ++
     be16 0x0100 ++ [0, 0] ++
     be32 0x00010000 ++ List.replicate 12 0 ++ be32 0x00010000 ++
     List.replicate 12 0 ++ be32 0x40000000 ++
     (if t.track_type = TrackType.Video then
       be32 (t.width * 0x10000 % u32lim) ++ be32 (t.height * 0x10000 % u32lim)
      else List.replicate 8 0)))

/-- `write_track`. -/
def writeTrakB (fragment : Bool) (language : List Nat) (t : Track) :
    Option (List Nat) := do
  let tkhd ← writeTkhdB t
  let mdia ← writeMdiaB fragment language t
  pure (mp4Box [0x74, 0x72, 0x61, 0x6b] (tkhd ++ mdia))

/-- `write_mvhd`; unwraps the video track (caller checks) and divides by
`track.timescale / 1000`. -/
def writeMvhdB (create_time duration track_ids vtimescale : Nat) :
    Option (List Nat) :=
  if vtimescale / 1000 = 0 then none
  else some (mp4Box [0x6d, 0x76, 0x68, 0x64]
    ((if create_time ≠ 0 then
        [0x01, 0x00, 0x00, 0x00] ++ be64 create_time ++ be64 create_time
      else [0, 0, 0, 0] ++ [0, 0, 0, 0] ++ [0, 0, 0, 0]) ++
     be32 1000 ++
     (if create_time ≠ 0 then be64 (duration / (vtimescale / 1000))
      else be32 (duration / (vtimescale / 1000))) ++
     be32 0x00010000 ++ be16 0x0100 ++ List.replicate 10 0 ++
     be32 0x00010000 ++ List.replicate 12 0 ++ be32 0x00010000 ++
     List.replicate 12 0 ++ be32 0x40000000 ++ List.replicate 24 0 ++
     be32 track_ids))

/-- `write_trex`. -/
def writeTrexB (t : Track) : List Nat :=
  mp4Box [0x74, 0x72, 0x65, 0x78]
    ([0, 0, 0, 0] ++ be32 t.id ++ [0, 0, 0, 1] ++ List.replicate 12 0)

/-- `write_mvex` over the present tracks (video then audio). -/
def writeMvexB (vt at_ : Option Track) : List Nat :=
  mp4Box [0x6d, 0x76, 0x65, 0x78]
    ((match vt with | some t => writeTrexB t | none => []) ++
     (match at_ with | some t => writeTrexB t | none => []))

/-- `write_moov`: the full movie box the muxer accumulates
(`none` on any of the panic paths above, including a missing video track in
`write_mvhd`). -/
def moovBytes (s : MState) : Option (List Nat) := do
  match s.video_track with
  | none => none
  | some vt => do
    let mvhd ← writeMvhdB s.create_time s.duration s.track_ids vt.timescale
    let vtrak ← writeTrakB s.fragment s.language vt
    let atrak ← match s.audio_track with
      | some at_ => writeTrakB s.fragment s.language at_
      | none => some []
    pure (mp4Box [0x6d, 0x6f, 0x6f, 0x76]
      (mvhd ++ vtrak ++ atrak ++ (if s.fragment then writeMvexB s.video_track s.audio_track else [])))

/-! ## Fragmented-mode serializers (`write_moof` family of `src/mp4e.rs`)

These `trun` writers carry no composition-time offset (flags without
`0x800`), unlike the `src/boxes.rs` variants. -/

/-- `write_trun` body; `data_offset` is backpatched by the source to
`end_pos - moof_pos + 8`, passed in here. -/
def trunBody (tt : TrackType) (st : SampleType) (dataSize dur dataOffset : Nat) :
    List Nat :=
  if tt = TrackType.Video then
    if st = SampleType.RandomAccess then
      be32 (0x001 ||| 0x004 ||| 0x100 ||| 0x200) ++ [0, 0, 0, 1] ++ be32 dataOffset ++
        be32 0x2000000 ++ be32 dur ++ be32 dataSize
    else
      be32 (0x001 ||| 0x100 ||| 0x200) ++ [0, 0, 0, 1] ++ be32 dataOffset ++
        be32 dur ++ be32 dataSize
  else
    be32 (0x001 ||| 0x200) ++ [0, 0, 0, 1] ++ be32 dataOffset ++ be32 dataSize

/-- `write_moof` with a given `data_offset` plugged into the `trun`. -/
def moofBytesAux (fid : Nat) (t : Track) (st : SampleType)
    (dataSize dur dataOffset : Nat) : List Nat :=
  mp4Box [0x6d, 0x6f, 0x6f, 0x66]
    (mp4Box [0x6d, 0x66, 0x68, 0x64] ([0, 0, 0, 0] ++ be32 fid) ++
     mp4Box [0x74, 0x72, 0x61, 0x66]
       (mp4Box [0x74, 0x66, 0x68, 0x64]
          (if t.track_type = TrackType.Video then
            be32 0x20020 ++ be32 t.id ++ be32 0x1010000
           else be32 0x20008 ++ be32 t.id ++ be32 dur) ++
        mp4Box [0x74, 0x72, 0x75, 0x6e] (trunBody t.track_type st dataSize dur dataOffset)))

/-- `write_moof`: the `trun.data_offset` is `end_pos - moof_pos + 8` where
`moof_pos = 0` in the scratch cursor and `end_pos` is the end of the `trun`
body, i.e. the total `moof` length (the box lengths do not depend on the
offset value, so the two-pass computation below reproduces the backpatch). -/
def moofBytes (fid : Nat) (t : Track) (st : SampleType) (dataSize dur : Nat) :
    List Nat :=
  moofBytesAux fid t st dataSize dur
    (((moofBytesAux fid t st dataSize dur 0).length + 8) % u32lim)

/-! ## The muxer operations of `src/mp4e.rs`

Each operation returns the updated state paired with a crash flag
(`true` means the Rust code panicked at that point; the state carries the
mutations performed before the panic). -/

/-- The `ftyp` literal of `init_mp4`: a 24-byte `ftyp` with major brand
`mp42`, minor version 0, compatible brands `mp42 isom`, followed by an
8-byte `free` box (32 bytes in total). -/
def ftypMp42Bytes : List Nat :=
  [0x00, 0x00, 0x00, 0x18, 0x66, 0x74, 0x79, 0x70, 0x6d, 0x70, 0x34, 0x32,
   0x00, 0x00, 0x00, 0x00, 0x6d, 0x70, 0x34, 0x32, 0x69, 0x73, 0x6f, 0x6d,
   0x00, 0x00, 0x00, 0x08, 0x66, 0x72, 0x65, 0x65]

/-- The 16-byte large-size `mdat` header of `init_mp4`:
`00 00 00 01 'mdat'` plus the 8-byte placeholder size (16). -/
def mdatHdrBytes : List Nat :=
  [0x00, 0x00, 0x00, 0x01, 0x6d, 0x64, 0x61, 0x74,
   0x00, 0x00, 0x00, 0x00, 0x00, 0x00, 0x00, 0x10]

/-- The `ftyp` literal of `write_ftyp` in `src/boxes.rs` (32 bytes):
size 0x20, `ftyp`, major brand `isom`, minor version 0, compatible brands
`mp41 isom iso6 iso2`.  This is the literal the specification describes;
the muxer in `src/mp4e.rs` never calls it. -/
def ftypIsomBytes : List Nat :=
  [0x00, 0x00, 0x00, 0x20, 0x66, 0x74, 0x79, 0x70, 0x69, 0x73, 0x6f, 0x6d,
   0x00, 0x00, 0x00, 0x00, 0x6d, 0x70, 0x34, 0x31, 0x69, 0x73, 0x6f, 0x6d,
   0x69, 0x73, 0x6f, 0x36, 0x69, 0x73, 0x6f, 0x32]

/-- `init_mp4`. -/
def initMp4 (s : MState) : MState :=
  let s1 := {s with sink := s.sink.writeAll ftypMp42Bytes, write_pos := s.write_pos + 32}
  if ¬s1.fragment then
    {s1 with sink := s1.sink.writeAll mdatHdrBytes, write_pos := s1.write_pos + 16}
  else s1

/-- `init_header_if_needed`. -/
def initHeaderIfNeeded (s : MState) : MState :=
  if s.init_header then s else {initMp4 s with init_header := true}

/-- `write_moov_if_needed`; crashes when `write_moov` panics. -/
def writeMoovIfNeeded (s : MState) : MState × Bool :=
  if s.write_moov then (s, false)
  else
    match moovBytes s with
    | none => (s, true)
    | some mb =>
      ({s with sink := s.sink.writeAll mb, write_pos := s.write_pos + mb.length,
               write_moov := true}, false)

/-- `write_mdat` (fragmented mode): `size + "mdat" + (u32 NAL length for
video) + payload`; `write_pos` advances by the `u32` box size. -/
def writeMdatFrag (s : MState) (data : List Nat) (video : Bool) : MState :=
  let box_size := (data.length % u32lim + (if video then 12 else 8)) % u32lim
  let bytes := be32 box_size ++ [0x6d, 0x64, 0x61, 0x74] ++
    (if video then be32 (data.length % u32lim) else []) ++ data
  {s with sink := s.sink.writeAll bytes, write_pos := s.write_pos + box_size}

/-- `put_sample`. -/
def putSample (s : MState) (data : List Nat) (dur : Nat) (video : Bool)
    (st : SampleType) : MState × Bool :=
  if s.fragment then
    match writeMoovIfNeeded s with
    | (s1, true) => (s1, true)
    | (s1, false) =>
      let s2 := {s1 with fregment_id := (s1.fregment_id + 1) % u32lim}
      match (if video then s2.video_track else s2.audio_track) with
      | none => (s2, true)    -- unwrap in write_tfhd / write_trun
      | some t =>
        let mb := moofBytes s2.fregment_id t st
          ((data.length % u32lim + 4) % u32lim) dur
        let s3 := {s2 with sink := s2.sink.writeAll mb,
                           write_pos := s2.write_pos + mb.length}
        (writeMdatFrag s3 data video, false)
  else if ¬video then
    match s.audio_track with
    | none => (s, true)       -- audio_track.unwrap()
    | some at_ =>
      let si : SampleInfo :=
        ⟨true, s.write_pos, data.length % u32lim, dur⟩
      ({s with audio_track := some {at_ with samples := at_.samples ++ [si]},
               sink := s.sink.writeAll data,
               write_pos := s.write_pos + data.length}, false)
  else
    match st with
    | SampleType.Default | SampleType.RandomAccess =>
      match s.video_track with
      | none => (s, true)     -- video_track.unwrap()
      | some vt =>
        let si : SampleInfo :=
          ⟨st = SampleType.RandomAccess, s.write_pos,
           (data.length % u32lim + 4) % u32lim, dur⟩
        ({s with video_track := some {vt with samples := vt.samples ++ [si]},
                 sink := s.sink.writeAll (be32 (data.length % u32lim) ++ data),
                 write_pos := s.write_pos + data.length + 4}, false)
    | SampleType.Continuation =>
      match s.video_track with
      | none => (s, true)
      | some vt =>
        match vt.samples.getLast? with
        | none => (s, true)   -- samples.last_mut().unwrap() on an empty table
        | some last =>
          let last' := {last with sample_size :=
            (last.sample_size + (data.length % u32lim + 4) % u32lim) % u32lim}
          ({s with video_track := some {vt with samples := vt.samples.dropLast ++ [last']},
                   sink := s.sink.writeAll (be32 (data.length % u32lim) ++ data),
                   write_pos := s.write_pos + data.length + 4}, false)

/-- One iteration of the `for frame_data in split_nalu(data)` loop of
`write_avc_frame`.  Reading `frame_data[0]` of an empty NAL slice panics. -/
def avcNalStep (dur : Nat) (s : MState) (nal : List Nat) : MState × Bool :=
  match nal.head? with
  | none => (s, true)
  | some b0 =>
    match s.video_track with
    | none => (s, true)
    | some vt =>
      let t := b0 &&& 0x1f
      if t = 7 then
        (if vt.sps = none then
          {s with video_track := some {vt with sps := some nal}} else s, false)
      else if t = 8 then
        (if vt.pps = none then
          {s with video_track := some {vt with pps := some nal}} else s, false)
      else
        if vt.sps ≠ none ∧ vt.pps ≠ none then
          let fmis := ueBits (nal.drop 1) 0 1
          let st := if fmis ≠ 0 then SampleType.Continuation
                    else if t = 5 then SampleType.RandomAccess
                    else SampleType.Default
          if t = 5 then
            putSample {s with send_first_random_access := true} nal dur true st
          else if s.send_first_random_access then putSample s nal dur true st
          else (s, false)
        else (s, false)

/-- One iteration of the loop of `write_hevc_frame`.  Note the source tests
`vps`, `sps` and then `vps` again (the `pps` test is missing in the code). -/
def hevcNalStep (dur : Nat) (s : MState) (nal : List Nat) : MState × Bool :=
  match nal.head? with
  | none => (s, true)
  | some b0 =>
    match s.video_track with
    | none => (s, true)
    | some vt =>
      let t := (b0 &&& 0x7e) >>> 1
      if t = 32 then
        (if vt.vps = none then
          {s with video_track := some {vt with vps := some nal}} else s, false)
      else if t = 33 then
        (if vt.sps = none then
          {s with video_track := some {vt with sps := some nal}} else s, false)
      else if t = 34 then
        (if vt.pps = none then
          {s with video_track := some {vt with pps := some nal}} else s, false)
      else
        if vt.vps ≠ none ∧ vt.sps ≠ none ∧ vt.vps ≠ none then
          if 16 ≤ t ∧ t ≤ 21 then
            match putSample s nal dur true SampleType.RandomAccess with
            | (s1, true) => (s1, true)
            | (s1, false) => ({s1 with send_first_random_access := true}, false)
          else if s.send_first_random_access then
            putSample s nal dur true SampleType.Default
          else (s, false)
        else (s, false)

/-- Sequential processing of the NAL units of one `encode_video` call;
stops at the first panic, keeping the state reached so far. -/
def processNals (f : MState → List Nat → MState × Bool) :
    MState → List (List Nat) → MState × Bool
  | s, [] => (s, false)
  | s, n :: ns =>
    match f s n with
    | (s', true) => (s', true)
    | (s', false) => processNals f s' ns

/-- `write_avc_frame`. -/
def writeAvcFrame (s : MState) (data : List Nat) (dur : Nat) : MState × Bool :=
  processNals (avcNalStep dur) s (splitNalu data)

/-- `write_hevc_frame`. -/
def writeHevcFrame (s : MState) (data : List Nat) (dur : Nat) : MState × Bool :=
  processNals (hevcNalStep dur) s (splitNalu data)

/-- `encode_video(data, duration)`: `duration * timescale / 1000` in `u32`
arithmetic, accumulated into the track and the global movie duration before
any NAL unit is classified. -/
def encodeVideo (s : MState) (data : List Nat) (dur : Nat) : MState × Bool :=
  let s := initHeaderIfNeeded s
  match s.video_track with
  | none => (s, false)
  | some t =>
    let d := dur * t.timescale % u32lim / 1000
    let t' := {t with duration := (t.duration + d) % u32lim}
    let s1 := {s with video_track := some t',
                      duration := if s.duration < t'.duration then t'.duration
                                  else s.duration}
    match t.codec with
    | Codec.AVC => writeAvcFrame s1 data d
    | Codec.HEVC => writeHevcFrame s1 data d
    | _ => (s1, false)

/-- `encode_audio(data, samples)`: gated on `send_first_random_access`
before any state change. -/
def encodeAudio (s : MState) (data : List Nat) (samples : Nat) : MState × Bool :=
  let s := initHeaderIfNeeded s
  match s.audio_track with
  | none => (s, false)
  | some at_ =>
    if s.send_first_random_access then
      let at' := {at_ with duration := (at_.duration + samples) % u32lim}
      putSample {s with audio_track := some at'} data samples false
        SampleType.RandomAccess
    else (s, false)

/-- `write_mdat_size`: seek to absolute offset 40, write
`write_pos - 32` as a big-endian `u64`, seek back to `write_pos`. -/
def writeMdatSize (s : MState) : MState :=
  let sk := (s.sink.seekTo 40).writeAll (be64 (s.write_pos - 32))
  {s with sink := sk.seekTo s.write_pos}

/-- `flush`. -/
def flushM (s : MState) : MState × Bool :=
  let s := initHeaderIfNeeded s
  if ¬s.write_moov then writeMoovIfNeeded (writeMdatSize s)
  else (s, false)

/-! ## Construction (`new_encoder`, `set_video_track`, `set_audio_track`) -/

/-- `new_encoder(fragment, writer)` with a fresh empty sink. -/
def newEncoder (fragment : Bool) : MState :=
  { fragment := fragment
    init_header := false
    write_pos := 0
    create_time := 0
    fregment_id := 0
    duration := 0
    track_ids := 1
    write_moov := false
    send_first_random_access := false
    language := [0x75, 0x6e, 0x64]   -- "und"
    sink := ⟨[], 0⟩
    video_track := none
    audio_track := none }

/-- `SAMPLE_RATE_ARRAY` and `get_sample_rate_idx` of `src/util.rs`. -/
def sampleRateArray : List Nat :=
  [96000, 88200, 64000, 48000, 44100, 32000, 24000, 22050, 16000, 12000, 11025,
   8000, 7350]

def getSampleRateIdx (sample_rate : Nat) : Nat :=
  match sampleRateArray.findIdx? (· = sample_rate) with
  | some i => i
  | none => 0x0b

/-- `set_video_track`. -/
def setVideoTrack (s : MState) (width height : Nat) (codec : Codec) : MState :=
  let t : Track :=
    { id := s.track_ids, duration := 0, timescale := 90000, sample_rate := 0,
      channel_count := 0, width := width, height := height, codec := codec,
      vps := none, sps := none, pps := none, dsi := none, samples := [],
      track_type := TrackType.Video }
  {s with video_track := some t, track_ids := s.track_ids + 1}

/-- `set_audio_track`, including the 2-byte AAC `AudioSpecificConfig`. -/
def setAudioTrack (s : MState) (sample_rate channel_count : Nat) (codec : Codec) :
    MState :=
  let profile : Nat := match codec with
    | Codec.AACMAIN => 1
    | Codec.AACLC => 2
    | Codec.AACSSR => 3
    | Codec.AACLTP => 4
    | Codec.HEAAC => 5
    | Codec.HEAACV2 => 29
    | _ => 0
  let dsi : Option (List Nat) := match codec with
    | Codec.OPUS => none
    | _ =>
      let idx := getSampleRateIdx sample_rate
      some [(profile <<< 3) ||| ((idx &&& 0x0e) >>> 1),
            (((idx &&& 0x01) <<< 7) ||| (channel_count <<< 3 % u32lim)) % 256]
  let t : Track :=
    { id := s.track_ids, duration := 0, timescale := sample_rate,
      sample_rate := sample_rate, channel_count := channel_count, width := 0,
      height := 0, codec := codec, vps := none, sps := none, pps := none,
      dsi := dsi, samples := [], track_type := TrackType.Audio }
  {s with audio_track := some t, track_ids := s.track_ids + 1}

/-- A muxer built by `new`/`new_with_fragment` followed by the optional
track-setup calls. -/
def setupState (fragment : Bool) (v : Option (Nat × Nat × Codec))
    (a : Option (Nat × Nat × Codec)) : MState :=
  let s := newEncoder fragment
  let s := match v with
    | some (w, h, c) => setVideoTrack s w h c
    | none => s
  match a with
  | some (sr, cc, c) => setAudioTrack s sr cc c
  | none => s

/-- One public sample-ingress call. -/
inductive Call where
  | audio (data : List Nat) (samples : Nat)
  | video (data : List Nat) (dur : Nat)

def runCall (s : MState) : Call → MState × Bool
  | Call.audio data n => encodeAudio s data n
  | Call.video data dur => encodeVideo s data dur

/-- States after each ingress call, stopping at (and including) the state
in which a call panicked. -/
def runTrace (s : MState) : List Call → List MState
  | [] => []
  | c :: cs =>
    match runCall s c with
    | (s', true) => [s']
    | (s', false) => s' :: runTrace s' cs

/-- Final state of a crash-free run (for concrete scenarios). -/
def runCalls (s : MState) : List Call → MState × Bool
  | [] => (s, false)
  | c :: cs =>
    match runCall s c with
    | (s', true) => (s', true)
    | (s', false) => runCalls s' cs

/-! ## State predicates and the keyframe-gate invariant (C1) -/

/-- Samples recorded in the audio track (empty when no track is set). -/
def audioSamples (s : MState) : List SampleInfo :=
  match s.audio_track with
  | some t => t.samples
  | none => []

/-- Samples recorded in the video track (empty when no track is set). -/
def videoSamples (s : MState) : List SampleInfo :=
  match s.video_track with
  | some t => t.samples
  | none => []

/-- The bytes `init_mp4` has emitted so far: nothing before the first
`encode_*` call, then the 32-byte header plus, in non-fragmented mode, the
16-byte `mdat` header. -/
def hdrContent (s : MState) : List Nat :=
  if s.init_header then
    ftypMp42Bytes ++ (if s.fragment then [] else mdatHdrBytes)
  else []

theorem writeAt_append (c : List Nat) (p : Nat) (bs : List Nat) (h : p = c.length) :
    writeAt c p bs = c ++ bs := by
  subst h
  unfold writeAt
  rw [List.take_length, Nat.sub_self]
  simp [List.drop_eq_nil_of_le]

theorem writeAll_append (sk : Sink) (bs : List Nat) (h : sk.pos = sk.content.length) :
    sk.writeAll bs = ⟨sk.content ++ bs, sk.content.length + bs.length⟩ := by
  unfold Sink.writeAll
  rw [writeAt_append sk.content sk.pos bs h, h]

theorem take_of_append {c : List Nat} (d : List Nat) (n : Nat) (h : n ≤ c.length) :
    (c ++ d).take n = c.take n :=
  List.take_append_of_le_length h

theorem length_ge_of_take {c : List Nat} {n : Nat} {v : List Nat}
    (h : c.take n = v) (hv : v.length = n) : n ≤ c.length := by
  have := congrArg List.length h
  simp [List.length_take] at this
  omega

/-- The keyframe-gate invariant maintained by every ingress call. -/
structure Inv (s : MState) : Prop where
  pos_eq : s.sink.pos = s.sink.content.length
  uninit : s.init_header = false →
    s.sink.content = [] ∧ s.send_first_random_access = false
  hdr32 : s.init_header = true → s.sink.content.take 32 = ftypMp42Bytes
  hdr48 : s.init_header = true → s.fragment = false →
    s.sink.content.take 48 = ftypMp42Bytes ++ mdatHdrBytes
  gate : s.send_first_random_access = false →
    audioSamples s = [] ∧ videoSamples s = [] ∧ s.sink.content = hdrContent s
  fragNoRec : s.fragment = true → videoSamples s = [] ∧ audioSamples s = []
  srfaSamples : s.fragment = false → s.send_first_random_access = true →
    videoSamples s ≠ []
  headRA : ∀ si, (videoSamples s).head? = some si → si.random_access = true

theorem inv_setup (fragment : Bool) (v a : Option (Nat × Nat × Codec)) :
    Inv (setupState fragment v a) := by
  rcases v with _ | ⟨w, h, c⟩ <;> rcases a with _ | ⟨sr, cc, c2⟩ <;>
    constructor <;>
    simp [setupState, newEncoder, setVideoTrack, setAudioTrack, audioSamples,
      videoSamples, hdrContent]

theorem writeAll_of_empty (sk : Sink) (bs : List Nat) (hc : sk.content = [])
    (hp : sk.pos = 0) : sk.writeAll bs = ⟨bs, bs.length⟩ := by
  unfold Sink.writeAll
  rw [writeAt_append sk.content sk.pos bs (by rw [hp, hc]; rfl), hc, hp]
  simp

theorem initMp4_eq (s : MState) (hc : s.sink.content = []) (hp : s.sink.pos = 0) :
    initMp4 s =
      {s with sink := ⟨ftypMp42Bytes ++ (if s.fragment then [] else mdatHdrBytes),
                       if s.fragment then 32 else 48⟩,
              write_pos := s.write_pos + (if s.fragment then 32 else 48)} := by
  have hw1 : s.sink.writeAll ftypMp42Bytes = ⟨ftypMp42Bytes, 32⟩ :=
    writeAll_of_empty s.sink ftypMp42Bytes hc hp
  unfold initMp4
  rw [hw1]
  by_cases hf : s.fragment
  · rw [if_neg (by simp [hf])]
    simp [hf]
  · rw [if_pos (by simp [hf])]
    have hw2 : Sink.writeAll ⟨ftypMp42Bytes, 32⟩ mdatHdrBytes =
        ⟨ftypMp42Bytes ++ mdatHdrBytes, 48⟩ := by
      unfold Sink.writeAll
      rw [writeAt_append ftypMp42Bytes 32 mdatHdrBytes (by rfl)]
      rfl
    rw [hw2]
    simp [hf]
    try omega

theorem initHeader_facts (s : MState) (hI : Inv s) :
    Inv (initHeaderIfNeeded s) ∧
    (initHeaderIfNeeded s).init_header = true ∧
    (initHeaderIfNeeded s).fragment = s.fragment ∧
    (initHeaderIfNeeded s).send_first_random_access = s.send_first_random_access ∧
    (initHeaderIfNeeded s).video_track = s.video_track ∧
    (initHeaderIfNeeded s).audio_track = s.audio_track := by
  unfold initHeaderIfNeeded
  by_cases hinit : s.init_header
  · rw [if_pos hinit]
    exact ⟨hI, hinit, rfl, rfl, rfl, rfl⟩
  · rw [if_neg hinit]
    have hun := hI.uninit (by simpa using hinit)
    have hgate := hI.gate hun.2
    have hpos0 : s.sink.pos = 0 := by
      rw [hI.pos_eq, hun.1]
      rfl
    rw [initMp4_eq s hun.1 hpos0]
    refine ⟨⟨?_, ?_, ?_, ?_, ?_, ?_, ?_, ?_⟩, rfl, rfl, rfl, rfl, rfl⟩
    · show (if s.fragment then 32 else 48) =
        (ftypMp42Bytes ++ (if s.fragment then [] else mdatHdrBytes)).length
      cases hf : s.fragment <;> decide
    · intro hcon
      simp at hcon
    · intro _
      show (ftypMp42Bytes ++ (if s.fragment then [] else mdatHdrBytes)).take 32 =
        ftypMp42Bytes
      rw [take_of_append _ 32 (by decide)]
      decide
    · intro _ hfr
      show (ftypMp42Bytes ++ (if s.fragment then [] else mdatHdrBytes)).take 48 =
        ftypMp42Bytes ++ mdatHdrBytes
      rw [show s.fragment = false from hfr]
      decide
    · intro hsr
      refine ⟨?_, ?_, ?_⟩
      · show audioSamples s = []
        exact hgate.1
      · show videoSamples s = []
        exact hgate.2.1
      · show ftypMp42Bytes ++ (if s.fragment then [] else mdatHdrBytes) = _
        unfold hdrContent
        rw [if_pos rfl]
    · intro hfr
      exact ⟨(hI.fragNoRec hfr).1, (hI.fragNoRec hfr).2⟩
    · intro _ hsr
      rw [hun.2] at hsr
      simp at hsr
    · intro si hsi
      exact hI.headRA si hsi

theorem exists_extra {a b : List Nat} (h : ∃ x, b = a ++ x) (c : List Nat) :
    ∃ y, b ++ c = a ++ y := by
  rcases h with ⟨x, hx⟩
  exact ⟨x ++ c, by rw [hx, List.append_assoc]⟩

theorem writeMoovIfNeeded_facts (s : MState)
    (hpos : s.sink.pos = s.sink.content.length) :
    (writeMoovIfNeeded s).1.fragment = s.fragment ∧
    (writeMoovIfNeeded s).1.init_header = s.init_header ∧
    (writeMoovIfNeeded s).1.send_first_random_access = s.send_first_random_access ∧
    (writeMoovIfNeeded s).1.video_track = s.video_track ∧
    (writeMoovIfNeeded s).1.audio_track = s.audio_track ∧
    (writeMoovIfNeeded s).1.sink.pos = (writeMoovIfNeeded s).1.sink.content.length ∧
    ∃ extra, (writeMoovIfNeeded s).1.sink.content = s.sink.content ++ extra := by
  unfold writeMoovIfNeeded
  by_cases hm : s.write_moov
  · rw [if_pos hm]
    exact ⟨rfl, rfl, rfl, rfl, rfl, hpos, [], by simp⟩
  · rw [if_neg hm]
    cases hmb : moovBytes s with
    | none =>
      exact ⟨rfl, rfl, rfl, rfl, rfl, hpos, [], by simp⟩
    | some mb =>
      dsimp only
      rw [writeAll_append s.sink mb hpos]
      exact ⟨rfl, rfl, rfl, rfl, rfl, by simp, mb, rfl⟩

theorem putSample_frag_facts (s : MState) (data : List Nat) (dur : Nat)
    (video : Bool) (st : SampleType) (hf : s.fragment = true)
    (hpos : s.sink.pos = s.sink.content.length) :
    (putSample s data dur video st).1.fragment = s.fragment ∧
    (putSample s data dur video st).1.init_header = s.init_header ∧
    (putSample s data dur video st).1.send_first_random_access =
      s.send_first_random_access ∧
    (putSample s data dur video st).1.video_track = s.video_track ∧
    (putSample s data dur video st).1.audio_track = s.audio_track ∧
    (putSample s data dur video st).1.sink.pos =
      (putSample s data dur video st).1.sink.content.length ∧
    ∃ extra, (putSample s data dur video st).1.sink.content =
      s.sink.content ++ extra := by
  obtain ⟨m1, m2, m3, m4, m5, m6, mex, hmex⟩ := writeMoovIfNeeded_facts s hpos
  unfold putSample
  rw [if_pos hf]
  cases hw : writeMoovIfNeeded s with
  | mk s1 crashed =>
    rw [hw] at m1 m2 m3 m4 m5 m6 hmex
    cases crashed with
    | true =>
      exact ⟨m1, m2, m3, m4, m5, m6, mex, hmex⟩
    | false =>
      dsimp only at m1 m2 m3 m4 m5 m6 hmex ⊢
      cases ht : (if video then s1.video_track else s1.audio_track) with
      | none =>
        dsimp only
        exact ⟨m1, m2, m3, m4, m5, m6, mex, hmex⟩
      | some t =>
        dsimp only
        rw [writeAll_append s1.sink _ m6]
        unfold writeMdatFrag
        dsimp only
        rw [writeAll_append ⟨_, _⟩ _ (by simp)]
        refine ⟨m1, m2, m3, m4, m5, by simp; try omega, ?_⟩
        dsimp only
        exact exists_extra (exists_extra ⟨mex, hmex⟩ _) _

theorem putSample_nonfrag_video (s : MState) (data : List Nat) (dur : Nat)
    (st : SampleType) (hf : s.fragment = false) (vt : Track)
    (hv : s.video_track = some vt)
    (hst : st = SampleType.Default ∨ st = SampleType.RandomAccess)
    (hpos : s.sink.pos = s.sink.content.length) :
    putSample s data dur true st =
      ({s with
          video_track := some {vt with samples := vt.samples ++
            [⟨decide (st = SampleType.RandomAccess), s.write_pos,
              (data.length % u32lim + 4) % u32lim, dur⟩]},
          sink := ⟨s.sink.content ++ (be32 (data.length % u32lim) ++ data),
                   s.sink.content.length + (be32 (data.length % u32lim) ++ data).length⟩,
          write_pos := s.write_pos + data.length + 4}, false) := by
  unfold putSample
  rw [if_neg (by simp [hf]), if_neg (by simp)]
  rcases hst with h | h <;> subst h <;>
    · dsimp only
      rw [hv]
      dsimp only
      rw [writeAll_append s.sink _ hpos]

theorem putSample_nonfrag_audio (s : MState) (data : List Nat) (dur : Nat)
    (hf : s.fragment = false) (at_ : Track) (ha : s.audio_track = some at_)
    (hpos : s.sink.pos = s.sink.content.length) :
    putSample s data dur false SampleType.RandomAccess =
      ({s with
          audio_track := some {at_ with samples := at_.samples ++
            [⟨true, s.write_pos, data.length % u32lim, dur⟩]},
          sink := ⟨s.sink.content ++ data, s.sink.content.length + data.length⟩,
          write_pos := s.write_pos + data.length}, false) := by
  unfold putSample
  rw [if_neg (by simp [hf]), if_pos (by simp)]
  rw [ha]
  dsimp only
  rw [writeAll_append s.sink _ hpos]

theorem videoSamples_some (s : MState) (vt : Track) (h : s.video_track = some vt) :
    videoSamples s = vt.samples := by
  unfold videoSamples
  rw [h]

theorem audioSamples_some (s : MState) (at_ : Track) (h : s.audio_track = some at_) :
    audioSamples s = at_.samples := by
  unfold audioSamples
  rw [h]

/-- Replacing the video track by one with the same sample table (and
possibly a new movie duration) preserves the invariant. -/
theorem inv_vtrack_same (s : MState) (hI : Inv s) (vt vt' : Track)
    (hv : s.video_track = some vt) (hsam : vt'.samples = vt.samples) (d : Nat) :
    Inv {s with video_track := some vt', duration := d} := by
  have hvs : videoSamples {s with video_track := some vt', duration := d} =
      vt'.samples := videoSamples_some _ vt' rfl
  constructor
  · exact hI.pos_eq
  · exact hI.uninit
  · exact hI.hdr32
  · exact hI.hdr48
  · intro hsr
    have g := hI.gate hsr
    exact ⟨g.1, by rw [hvs, hsam, ← videoSamples_some s vt hv]; exact g.2.1, g.2.2⟩
  · intro hfr
    have g := hI.fragNoRec hfr
    exact ⟨by rw [hvs, hsam, ← videoSamples_some s vt hv]; exact g.1, g.2⟩
  · intro hfr hsr
    have g := hI.srfaSamples hfr hsr
    rw [hvs, hsam, ← videoSamples_some s vt hv]
    exact g
  · intro si hsi
    apply hI.headRA si
    rw [videoSamples_some s vt hv]
    rw [hvs, hsam] at hsi
    exact hsi

/-- Replacing the audio track by one with the same sample table preserves
the invariant. -/
theorem inv_atrack_same (s : MState) (hI : Inv s) (at_ at' : Track)
    (ha : s.audio_track = some at_) (hsam : at'.samples = at_.samples) :
    Inv {s with audio_track := some at'} := by
  have has : audioSamples {s with audio_track := some at'} = at'.samples :=
    audioSamples_some _ at' rfl
  constructor
  · exact hI.pos_eq
  · exact hI.uninit
  · exact hI.hdr32
  · exact hI.hdr48
  · intro hsr
    have g := hI.gate hsr
    exact ⟨by rw [has, hsam, ← audioSamples_some s at_ ha]; exact g.1, g.2.1, g.2.2⟩
  · intro hfr
    have g := hI.fragNoRec hfr
    exact ⟨g.1, by rw [has, hsam, ← audioSamples_some s at_ ha]; exact g.2⟩
  · exact hI.srfaSamples
  · exact hI.headRA

/-- A state whose sink extends an invariant state's sink, whose tracks are
unchanged, and whose keyframe flag is set, satisfies the invariant
(covers every fragmented-mode `put_sample` outcome). -/
theorem inv_frag_state (s s1 : MState) (hI : Inv s) (hinit : s.init_header = true)
    (hf : s.fragment = true)
    (h1 : s1.fragment = s.fragment) (h2 : s1.init_header = s.init_header)
    (h3 : s1.send_first_random_access = true)
    (h4 : s1.video_track = s.video_track) (h5 : s1.audio_track = s.audio_track)
    (h6 : s1.sink.pos = s1.sink.content.length)
    (h7 : ∃ extra, s1.sink.content = s.sink.content ++ extra) :
    Inv s1 := by
  obtain ⟨extra, hex⟩ := h7
  constructor
  · exact h6
  · intro hcon
    rw [h2, hinit] at hcon
    simp at hcon
  · intro _
    rw [hex, take_of_append _ 32
      (length_ge_of_take (hI.hdr32 hinit) (by decide))]
    exact hI.hdr32 hinit
  · intro _ hfr
    rw [h1, hf] at hfr
    simp at hfr
  · intro hsr
    rw [h3] at hsr
    simp at hsr
  · intro _
    have hvv : videoSamples s1 = videoSamples s := by
      unfold videoSamples
      rw [h4]
    have haa : audioSamples s1 = audioSamples s := by
      unfold audioSamples
      rw [h5]
    exact ⟨by rw [hvv]; exact (hI.fragNoRec hf).1,
           by rw [haa]; exact (hI.fragNoRec hf).2⟩
  · intro hfr
    rw [h1, hf] at hfr
    simp at hfr
  · intro si hsi
    apply hI.headRA si
    have hvv : videoSamples s1 = videoSamples s := by
      unfold videoSamples
      rw [h4]
    rw [← hvv]
    exact hsi

/-- Invariance of a non-fragmented video-sample push (the pushed state has
its keyframe flag set, either because the sample is the first keyframe or
because the flag was already set). -/
theorem inv_video_push (s : MState) (hI : Inv s) (hinit : s.init_header = true)
    (vt : Track) (hv : s.video_track = some vt) (hf : s.fragment = false)
    (si : SampleInfo) (bytes : List Nat) (wp : Nat) (sr : Bool) (hsr : sr = true)
    (hhead : si.random_access = true ∨ vt.samples ≠ []) :
    Inv {s with video_track := some {vt with samples := vt.samples ++ [si]},
                sink := ⟨s.sink.content ++ bytes, s.sink.content.length + bytes.length⟩,
                write_pos := wp, send_first_random_access := sr} := by
  constructor
  · simp
  · intro hcon
    simp [hinit] at hcon
  · intro _
    show (s.sink.content ++ bytes).take 32 = ftypMp42Bytes
    rw [take_of_append _ 32 (length_ge_of_take (hI.hdr32 hinit) (by decide))]
    exact hI.hdr32 hinit
  · intro _ hfr
    show (s.sink.content ++ bytes).take 48 = ftypMp42Bytes ++ mdatHdrBytes
    have h48 := hI.hdr48 hinit hf
    rw [take_of_append _ 48 (length_ge_of_take h48 (by decide))]
    exact h48
  · intro hcon
    simp [hsr] at hcon
  · intro hcon
    simp [hf] at hcon
  · intro _ _
    rw [videoSamples_some _ _ rfl]
    simp
  · intro x hx
    rw [videoSamples_some _ _ rfl] at hx
    show x.random_access = true
    cases hvs : vt.samples with
    | nil =>
      rw [hvs] at hx
      simp at hx
      rcases hhead with h | h
      · exact hx ▸ h
      · exact absurd hvs h
    | cons a t =>
      rw [hvs] at hx
      simp at hx
      apply hI.headRA x
      rw [videoSamples_some s vt hv, hvs, hx]
      rfl

/-- Invariance of a non-fragmented audio-sample push (only reachable with
the keyframe flag set). -/
theorem inv_audio_push (s : MState) (hI : Inv s) (hinit : s.init_header = true)
    (at_ : Track) (ha : s.audio_track = some at_) (hf : s.fragment = false)
    (hsr : s.send_first_random_access = true)
    (si : SampleInfo) (bytes : List Nat) (wp : Nat) :
    Inv {s with audio_track := some {at_ with samples := at_.samples ++ [si]},
                sink := ⟨s.sink.content ++ bytes, s.sink.content.length + bytes.length⟩,
                write_pos := wp} := by
  constructor
  · simp
  · intro hcon
    simp [hinit] at hcon
  · intro _
    show (s.sink.content ++ bytes).take 32 = ftypMp42Bytes
    rw [take_of_append _ 32 (length_ge_of_take (hI.hdr32 hinit) (by decide))]
    exact hI.hdr32 hinit
  · intro _ hfr
    show (s.sink.content ++ bytes).take 48 = ftypMp42Bytes ++ mdatHdrBytes
    have h48 := hI.hdr48 hinit hf
    rw [take_of_append _ 48 (length_ge_of_take h48 (by decide))]
    exact h48
  · intro hcon
    simp [hsr] at hcon
  · intro hcon
    simp [hf] at hcon
  · intro _ _
    show videoSamples s ≠ []
    exact hI.srfaSamples hf hsr
  · intro x hx
    apply hI.headRA x
    show (videoSamples s).head? = some x
    unfold videoSamples at hx ⊢
    exact hx

/-- In fragmented mode, with the relevant track present, `put_sample` can
only crash inside `write_moov_if_needed`, leaving the state unchanged. -/
theorem putSample_frag_crash (s : MState) (data : List Nat) (dur : Nat)
    (video : Bool) (st : SampleType) (hf : s.fragment = true)
    (hv : (if video then s.video_track else s.audio_track) ≠ none) :
    (putSample s data dur video st).2 = true →
      (putSample s data dur video st).1 = s := by
  unfold putSample
  rw [if_pos hf]
  unfold writeMoovIfNeeded
  by_cases hm : s.write_moov
  · rw [if_pos hm]
    dsimp only
    cases ht : (if video then s.video_track else s.audio_track) with
    | none => exact absurd ht hv
    | some t =>
      dsimp only
      intro hcon
      simp at hcon
  · rw [if_neg hm]
    cases hmb : moovBytes s with
    | none =>
      intro _
      rfl
    | some mb =>
      dsimp only
      cases ht : (if video then s.video_track else s.audio_track) with
      | none => exact absurd ht hv
      | some t =>
        dsimp only
        intro hcon
        simp at hcon

/-- With `max_prefix = 1` the Exp-Golomb reader always returns 0: a first
bit of 0 hits the cap immediately, and a first bit of 1 decodes the value 0.
Consequently `write_avc_frame` never classifies a NAL unit as a
continuation slice. -/
theorem ueBits_one (data : List Nat) (pos : Nat) : ueBits data pos 1 = 0 := by
  unfold ueBits ueLoop
  by_cases hb : (getBit data pos).1 = 0
  · have h : ueLoopGo data 1 (1 - 0) pos 0 = none := by
      show ueLoopGo data 1 1 pos 0 = none
      rw [ueLoopGo]
      simp [hb]
    rw [h]
  · have h : ueLoopGo data 1 (1 - 0) pos 0 = some (0, (getBit data pos).2) := by
      show ueLoopGo data 1 1 pos 0 = _
      rw [ueLoopGo]
      simp [hb]
    rw [h]
    simp

theorem inv_avcNalStep (dur : Nat) (s : MState) (nal : List Nat) (hI : Inv s)
    (hinit : s.init_header = true) :
    Inv (avcNalStep dur s nal).1 ∧ (avcNalStep dur s nal).1.init_header = true := by
  unfold avcNalStep
  cases hh : nal.head? with
  | none => exact ⟨hI, hinit⟩
  | some b0 =>
    cases hv : s.video_track with
    | none => exact ⟨hI, hinit⟩
    | some vt =>
      dsimp only
      by_cases h7 : b0 &&& 0x1f = 7
      · rw [if_pos h7]
        by_cases hsps : vt.sps = none
        · rw [if_pos hsps]
          exact ⟨inv_vtrack_same s hI vt {vt with sps := some nal} hv rfl s.duration,
            hinit⟩
        · rw [if_neg hsps]
          exact ⟨hI, hinit⟩
      · rw [if_neg h7]
        by_cases h8 : b0 &&& 0x1f = 8
        · rw [if_pos h8]
          by_cases hpps : vt.pps = none
          · rw [if_pos hpps]
            exact ⟨inv_vtrack_same s hI vt {vt with pps := some nal} hv rfl s.duration,
              hinit⟩
          · rw [if_neg hpps]
            exact ⟨hI, hinit⟩
        · rw [if_neg h8]
          by_cases hps : vt.sps ≠ none ∧ vt.pps ≠ none
          · rw [if_pos hps]
            rw [show (if ueBits (nal.drop 1) 0 1 ≠ 0 then SampleType.Continuation
                else if b0 &&& 0x1f = 5 then SampleType.RandomAccess
                else SampleType.Default) =
              (if b0 &&& 0x1f = 5 then SampleType.RandomAccess
               else SampleType.Default) from by rw [ueBits_one]; simp]
            by_cases h5 : b0 &&& 0x1f = 5
            · rw [if_pos h5, if_pos h5]
              by_cases hfrag : s.fragment
              · obtain ⟨m1, m2, m3, m4, m5, m6, hmex⟩ :=
                  putSample_frag_facts
                    {s with send_first_random_access := true, video_track := some vt}
                    nal dur true SampleType.RandomAccess hfrag hI.pos_eq
                refine ⟨inv_frag_state s _ hI hinit hfrag m1 m2 m3
                  (m4.trans hv.symm) m5 m6 hmex, ?_⟩
                rw [m2]
                exact hinit
              · rw [putSample_nonfrag_video
                  {s with send_first_random_access := true, video_track := some vt}
                  nal dur SampleType.RandomAccess (by simpa using hfrag) vt rfl
                  (Or.inr rfl) hI.pos_eq]
                refine ⟨?_, hinit⟩
                exact inv_video_push s hI hinit vt hv (by simpa using hfrag) _ _ _
                  true rfl (Or.inl rfl)
            · rw [if_neg h5, if_neg h5]
              by_cases hsr : s.send_first_random_access
              · rw [if_pos hsr]
                by_cases hfrag : s.fragment
                · obtain ⟨m1, m2, m3, m4, m5, m6, hmex⟩ :=
                    putSample_frag_facts s nal dur true SampleType.Default hfrag
                      hI.pos_eq
                  refine ⟨inv_frag_state s _ hI hinit hfrag m1 m2 ?_ m4 m5 m6 hmex, ?_⟩
                  · rw [m3]
                    exact hsr
                  · rw [m2]
                    exact hinit
                · rw [putSample_nonfrag_video s nal dur SampleType.Default
                    (by simpa using hfrag) vt hv (Or.inl rfl) hI.pos_eq]
                  refine ⟨?_, hinit⟩
                  have hne : vt.samples ≠ [] := by
                    rw [← videoSamples_some s vt hv]
                    exact hI.srfaSamples (by simpa using hfrag) hsr
                  exact inv_video_push s hI hinit vt hv (by simpa using hfrag) _ _ _
                    s.send_first_random_access hsr (Or.inr hne)
              · rw [if_neg hsr]
                exact ⟨hI, hinit⟩
          · rw [if_neg hps]
            exact ⟨hI, hinit⟩

theorem inv_hevcNalStep (dur : Nat) (s : MState) (nal : List Nat) (hI : Inv s)
    (hinit : s.init_header = true) :
    Inv (hevcNalStep dur s nal).1 ∧ (hevcNalStep dur s nal).1.init_header = true := by
  unfold hevcNalStep
  cases hh : nal.head? with
  | none => exact ⟨hI, hinit⟩
  | some b0 =>
    cases hv : s.video_track with
    | none => exact ⟨hI, hinit⟩
    | some vt =>
      dsimp only
      by_cases h32 : (b0 &&& 0x7e) >>> 1 = 32
      · rw [if_pos h32]
        by_cases hvps : vt.vps = none
        · rw [if_pos hvps]
          exact ⟨inv_vtrack_same s hI vt {vt with vps := some nal} hv rfl s.duration,
            hinit⟩
        · rw [if_neg hvps]
          exact ⟨hI, hinit⟩
      · rw [if_neg h32]
        by_cases h33 : (b0 &&& 0x7e) >>> 1 = 33
        · rw [if_pos h33]
          by_cases hsps : vt.sps = none
          · rw [if_pos hsps]
            exact ⟨inv_vtrack_same s hI vt {vt with sps := some nal} hv rfl s.duration,
              hinit⟩
          · rw [if_neg hsps]
            exact ⟨hI, hinit⟩
        · rw [if_neg h33]
          by_cases h34 : (b0 &&& 0x7e) >>> 1 = 34
          · rw [if_pos h34]
            by_cases hpps : vt.pps = none
            · rw [if_pos hpps]
              exact ⟨inv_vtrack_same s hI vt {vt with pps := some nal} hv rfl
                s.duration, hinit⟩
            · rw [if_neg hpps]
              exact ⟨hI, hinit⟩
          · rw [if_neg h34]
            by_cases hps : vt.vps ≠ none ∧ vt.sps ≠ none ∧ vt.vps ≠ none
            · rw [if_pos hps]
              by_cases hrap : 16 ≤ (b0 &&& 0x7e) >>> 1 ∧ (b0 &&& 0x7e) >>> 1 ≤ 21
              · rw [if_pos hrap]
                by_cases hfrag : s.fragment
                · obtain ⟨m1, m2, m3, m4, m5, m6, hmex⟩ :=
                    putSample_frag_facts s nal dur true SampleType.RandomAccess hfrag
                      hI.pos_eq
                  cases hres : putSample s nal dur true SampleType.RandomAccess with
                  | mk s1 c =>
                    rw [hres] at m1 m2 m3 m4 m5 m6 hmex
                    dsimp only at m1 m2 m3 m4 m5 m6 hmex
                    cases c with
                    | true =>
                      have hcr := putSample_frag_crash s nal dur true
                        SampleType.RandomAccess hfrag (by simp [hv])
                      rw [hres] at hcr
                      simp at hcr
                      dsimp only
                      rw [hcr]
                      exact ⟨hI, hinit⟩
                    | false =>
                      dsimp only
                      exact ⟨inv_frag_state s {s1 with send_first_random_access := true}
                        hI hinit hfrag m1 m2 rfl m4 m5 m6 hmex, m2.trans hinit⟩
                · rw [putSample_nonfrag_video s nal dur SampleType.RandomAccess
                    (by simpa using hfrag) vt hv (Or.inr rfl) hI.pos_eq]
                  dsimp only
                  refine ⟨?_, hinit⟩
                  exact inv_video_push s hI hinit vt hv (by simpa using hfrag) _ _ _
                    true rfl (Or.inl rfl)
              · rw [if_neg hrap]
                by_cases hsr : s.send_first_random_access
                · rw [if_pos hsr]
                  by_cases hfrag : s.fragment
                  · obtain ⟨m1, m2, m3, m4, m5, m6, hmex⟩ :=
                      putSample_frag_facts s nal dur true SampleType.Default hfrag
                        hI.pos_eq
                    refine ⟨inv_frag_state s _ hI hinit hfrag m1 m2 ?_ m4 m5 m6 hmex, ?_⟩
                    · rw [m3]
                      exact hsr
                    · rw [m2]
                      exact hinit
                  · rw [putSample_nonfrag_video s nal dur SampleType.Default
                      (by simpa using hfrag) vt hv (Or.inl rfl) hI.pos_eq]
                    refine ⟨?_, hinit⟩
                    have hne : vt.samples ≠ [] := by
                      rw [← videoSamples_some s vt hv]
                      exact hI.srfaSamples (by simpa using hfrag) hsr
                    exact inv_video_push s hI hinit vt hv (by simpa using hfrag) _ _ _
                      s.send_first_random_access hsr (Or.inr hne)
                · rw [if_neg hsr]
                  exact ⟨hI, hinit⟩
            · rw [if_neg hps]
              exact ⟨hI, hinit⟩

theorem inv_processNals (f : MState → List Nat → MState × Bool)
    (hf : ∀ s nal, Inv s → s.init_header = true →
      Inv (f s nal).1 ∧ (f s nal).1.init_header = true) :
    ∀ (ns : List (List Nat)) (s : MState), Inv s → s.init_header = true →
      Inv (processNals f s ns).1 ∧ (processNals f s ns).1.init_header = true := by
  intro ns
  induction ns with
  | nil =>
    intro s hI hinit
    exact ⟨hI, hinit⟩
  | cons n ns ih =>
    intro s hI hinit
    unfold processNals
    cases hres : f s n with
    | mk s' c =>
      have h := hf s n hI hinit
      rw [hres] at h
      cases c with
      | true => exact h
      | false => exact ih s' h.1 h.2

theorem inv_encodeVideo (s : MState) (data : List Nat) (dur : Nat) (hI : Inv s) :
    Inv (encodeVideo s data dur).1 ∧
      (encodeVideo s data dur).1.init_header = true := by
  obtain ⟨hI1, hinit1, _, _, _, _⟩ := initHeader_facts s hI
  unfold encodeVideo
  dsimp only
  cases hv : (initHeaderIfNeeded s).video_track with
  | none => exact ⟨hI1, hinit1⟩
  | some t =>
    dsimp only
    have hS1 : Inv {initHeaderIfNeeded s with
        video_track := some {t with duration :=
          (t.duration + dur * t.timescale % u32lim / 1000) % u32lim},
        duration := if (initHeaderIfNeeded s).duration <
            (t.duration + dur * t.timescale % u32lim / 1000) % u32lim then
            (t.duration + dur * t.timescale % u32lim / 1000) % u32lim
          else (initHeaderIfNeeded s).duration} :=
      inv_vtrack_same _ hI1 t
        {t with duration := (t.duration + dur * t.timescale % u32lim / 1000) % u32lim}
        hv rfl _
    revert hS1
    cases t.codec <;> dsimp only <;> intro hS1
    case AVC =>
      unfold writeAvcFrame
      exact inv_processNals _
        (fun s' nal hI' hinit' => inv_avcNalStep _ s' nal hI' hinit') _ _
        hS1 hinit1
    case HEVC =>
      unfold writeHevcFrame
      exact inv_processNals _
        (fun s' nal hI' hinit' => inv_hevcNalStep _ s' nal hI' hinit') _ _
        hS1 hinit1
    all_goals exact ⟨hS1, hinit1⟩

theorem inv_encodeAudio (s : MState) (data : List Nat) (n : Nat) (hI : Inv s) :
    Inv (encodeAudio s data n).1 ∧
      (encodeAudio s data n).1.init_header = true := by
  obtain ⟨hI1, hinit1, _, _, _, _⟩ := initHeader_facts s hI
  unfold encodeAudio
  dsimp only
  cases ha : (initHeaderIfNeeded s).audio_track with
  | none => exact ⟨hI1, hinit1⟩
  | some at_ =>
    dsimp only
    by_cases hsr : (initHeaderIfNeeded s).send_first_random_access
    · rw [if_pos hsr]
      have hI2 : Inv {initHeaderIfNeeded s with
          audio_track := some {at_ with duration := (at_.duration + n) % u32lim}} :=
        inv_atrack_same _ hI1 at_ _ ha rfl
      by_cases hfrag : (initHeaderIfNeeded s).fragment
      · obtain ⟨m1, m2, m3, m4, m5, m6, hmex⟩ :=
          putSample_frag_facts {initHeaderIfNeeded s with
              audio_track := some {at_ with duration := (at_.duration + n) % u32lim}}
            data n false SampleType.RandomAccess hfrag hI2.pos_eq
        refine ⟨inv_frag_state _ _ hI2 hinit1 hfrag m1 m2 ?_ m4 m5 m6 hmex, ?_⟩
        · rw [m3]
          exact hsr
        · rw [m2]
          exact hinit1
      · rw [putSample_nonfrag_audio {initHeaderIfNeeded s with
            audio_track := some {at_ with duration := (at_.duration + n) % u32lim}}
            data n (by simpa using hfrag) _ rfl hI2.pos_eq]
        exact ⟨inv_audio_push _ hI2 hinit1 _ rfl (by simpa using hfrag) hsr _ _ _,
          hinit1⟩
    · rw [if_neg hsr]
      exact ⟨hI1, hinit1⟩

theorem inv_runCall (s : MState) (c : Call) (hI : Inv s) :
    Inv (runCall s c).1 ∧ (runCall s c).1.init_header = true := by
  cases c with
  | audio data n => exact inv_encodeAudio s data n hI
  | video data dur => exact inv_encodeVideo s data dur hI

/-- Every state reached by a trace of ingress calls satisfies the keyframe-gate
invariant. -/
theorem inv_runTrace : ∀ (cs : List Call) (s : MState), Inv s →
    ∀ s', s' ∈ runTrace s cs → Inv s' := by
  intro cs
  induction cs with
  | nil =>
    intro s hI s' h
    simp [runTrace] at h
  | cons c cs ih =>
    intro s hI s' h
    have hc := inv_runCall s c hI
    unfold runTrace at h
    cases hres : runCall s c with
    | mk s1 b =>
      rw [hres] at h hc
      cases b with
      | true =>
        simp at h
        exact h ▸ hc.1
      | false =>
        simp at h
        rcases h with h | h
        · exact h ▸ hc.1
        · exact ih s1 hc.1 s' h

/-- **C1.** Keyframe gate: along every sequence of ingress calls starting
from any freshly constructed muxer, every intermediate state in which
`send_first_random_access` is still unset has no recorded audio sample, no
recorded video sample, and a sink holding only the initialization header;
moreover the first `SampleInfo` of the video track, whenever one exists, has
`random_access = true`. -/
theorem C1_keyframe_gate (fragment : Bool) (v a : Option (Nat × Nat × Codec))
    (cs : List Call) (s' : MState)
    (hmem : s' ∈ runTrace (setupState fragment v a) cs) :
    (s'.send_first_random_access = false →
      audioSamples s' = [] ∧ videoSamples s' = [] ∧
      s'.sink.content = hdrContent s') ∧
    (∀ si, (videoSamples s').head? = some si → si.random_access = true) := by
  have hI := inv_runTrace cs (setupState fragment v a) (inv_setup fragment v a)
    s' hmem
  exact ⟨hI.gate, hI.headRA⟩

/-- One-call scenario for the gate: a non-IDR AVC slice arrives before any
parameter set or keyframe. -/
def gateCalls : List Call := [Call.video [0, 0, 0, 1, 0x41, 0x9a] 33]

/-- The state after the single call of `gateCalls`. -/
def gateState : MState :=
  (runTrace (setupState false (some (640, 480, Codec.AVC)) none) gateCalls).getD 0
    (newEncoder false)

theorem C1_keyframe_gate_witness :
    gateState ∈ runTrace (setupState false (some (640, 480, Codec.AVC)) none)
      gateCalls ∧
    audioSamples gateState = [] ∧ videoSamples gateState = [] ∧
    gateState.sink.content = hdrContent gateState :=
  ⟨by decide,
   (C1_keyframe_gate false (some (640, 480, Codec.AVC)) none gateCalls gateState
     (by decide)).1 (by decide)⟩

/-! ## C2: the first-call header bytes -/

/-- **C2 counterexample.**  The first ingress call does not emit the 32-byte
`isom` `ftyp` literal of `write_ftyp` in `src/boxes.rs` (major brand `isom`,
compatible brands `mp41 isom iso6 iso2`); it emits the 24-byte `mp42` `ftyp`
plus the 8-byte `free` box of `init_mp4` in `src/mp4e.rs`. -/
theorem C2_counterexample :
    (runCall (setupState false (some (640, 480, Codec.AVC)) none)
        (Call.video [] 0)).1.sink.content.take 32 ≠ ftypIsomBytes ∧
    (runCall (setupState false (some (640, 480, Codec.AVC)) none)
        (Call.video [] 0)).1.sink.content.take 32 = ftypMp42Bytes := by
  decide

/-- **C2.**  After any ingress call on any state satisfying the muxer
invariant, the sink starts with the 32 bytes of `init_mp4`: a 24-byte `ftyp`
(major brand `mp42`, minor version 0, compatible brands `mp42 isom`) followed
by an 8-byte `free` box; in non-fragmented mode these are followed by the
16-byte large-size `mdat` header `00 00 00 01 'mdat'` plus the 8-byte
placeholder size. -/
theorem C2_header_bytes (s : MState) (c : Call) (hI : Inv s) :
    (runCall s c).1.sink.content.take 32 = ftypMp42Bytes ∧
    ((runCall s c).1.fragment = false →
      (runCall s c).1.sink.content.take 48 = ftypMp42Bytes ++ mdatHdrBytes) := by
  have h := inv_runCall s c hI
  exact ⟨h.1.hdr32 h.2, fun hf => h.1.hdr48 h.2 hf⟩

theorem C2_header_bytes_witness :
    (runCall (setupState false (some (640, 480, Codec.AVC)) none)
        (Call.video [] 0)).1.sink.content.take 32 = ftypMp42Bytes ∧
    ((runCall (setupState false (some (640, 480, Codec.AVC)) none)
        (Call.video [] 0)).1.fragment = false →
      (runCall (setupState false (some (640, 480, Codec.AVC)) none)
          (Call.video [] 0)).1.sink.content.take 48 =
        ftypMp42Bytes ++ mdatHdrBytes) :=
  C2_header_bytes (setupState false (some (640, 480, Codec.AVC)) none)
    (Call.video [] 0) (inv_setup false (some (640, 480, Codec.AVC)) none)

/-! ## C9: the empty NAL slice panics -/

/-- **C9.**  Consecutive start codes make `split_nalu` yield an empty slice,
and both classifiers then read `frame_data[0]` out of bounds: `encode_video`
panics on such input, for AVC and for HEVC alike (the crash flag of the model
marks the panic). -/
theorem C9_empty_nal_crash :
    (encodeVideo (setupState false (some (640, 480, Codec.AVC)) none)
        [0, 0, 1, 0, 0, 1, 0x65] 33).2 = true ∧
    (encodeVideo (setupState false (some (640, 480, Codec.HEVC)) none)
        [0, 0, 1, 0, 0, 1, 0x26] 33).2 = true := by
  decide

/-! ## C7: the misplaced `stss` entry count -/

/-- Five video samples, random access at positions 1, 2, 3 and 5
(1-based). -/
def c7samples : List SampleInfo :=
  [⟨true, 48, 10, 3000⟩, ⟨true, 49, 10, 3000⟩, ⟨true, 50, 10, 3000⟩,
   ⟨false, 51, 10, 3000⟩, ⟨true, 52, 10, 3000⟩]

/-- A configured AVC video track holding `c7samples`. -/
def c7track : Track :=
  { id := 1, duration := 3000, timescale := 90000, sample_rate := 0,
    channel_count := 0, width := 64, height := 48, codec := Codec.AVC,
    vps := none, sps := some [0x67, 0x42, 0xC0, 0x0D], pps := some [0x68, 0xE1],
    dsi := none, samples := c7samples, track_type := TrackType.Video }

/-- **C7.**  `write_stss` of `src/mp4e.rs` writes the random-access indices
immediately after the version/flags word (reserving no room for an entry
count) and then writes the count at box offset 24 — clobbering the fourth
index.  On four random-access samples out of five it produces a box whose
count field position holds the first index and whose fourth index was
overwritten by the count 4, diverging from the correct box of `write_stss`
in `src/boxes.rs`; moreover `write_stbl` of `src/mp4e.rs` emits `stss` for a
video track even in fragmented mode (tag `stss` at offset 255 of the
fragmented `stbl`), which `src/boxes.rs` suppresses. -/
theorem C7_stss_misplaced_count :
    writeStssB c7samples =
      [0, 0, 0, 28, 0x73, 0x74, 0x73, 0x73, 0, 0, 0, 0,
       0, 0, 0, 1, 0, 0, 0, 2, 0, 0, 0, 3, 0, 0, 0, 4] ∧
    writeStssBoxesB c7samples =
      [0, 0, 0, 32, 0x73, 0x74, 0x73, 0x73, 0, 0, 0, 0, 0, 0, 0, 4,
       0, 0, 0, 1, 0, 0, 0, 2, 0, 0, 0, 3, 0, 0, 0, 5] ∧
    writeStssB c7samples ≠ writeStssBoxesB c7samples ∧
    (((writeStblB true c7track).getD []).drop 255).take 4 =
      [0x73, 0x74, 0x73, 0x73] := by
  decide

/-! ## C10: durations advance before NAL classification -/

/-- A NAL-loop iteration that captures nothing and records nothing: the NAL
is nonempty, its type is none of 5 (IDR), 7 (SPS), 8 (PPS), and either no
keyframe has been seen yet or the SPS is still missing.  The state is
returned unchanged. -/
theorem avcNalStep_skip (d : Nat) (s : MState) (nal : List Nat)
    (hne : nal ≠ []) (h5 : ¬(nal.headD 0 &&& 0x1f = 5))
    (h7 : ¬(nal.headD 0 &&& 0x1f = 7)) (h8 : ¬(nal.headD 0 &&& 0x1f = 8))
    (vt : Track) (hv : s.video_track = some vt)
    (hskip : s.send_first_random_access = false ∨ vt.sps = none) :
    avcNalStep d s nal = (s, false) := by
  cases nal with
  | nil => exact absurd rfl hne
  | cons b rest =>
    rw [List.headD_cons] at h5 h7 h8
    unfold avcNalStep
    rw [List.head?_cons]
    dsimp only
    rw [hv]
    dsimp only
    rw [if_neg h7, if_neg h8]
    by_cases hps : vt.sps ≠ none ∧ vt.pps ≠ none
    · rw [if_pos hps]
      rw [if_neg h5]
      rcases hskip with hsr | hnone
      · rw [if_neg (by simp [hsr])]
      · exact absurd hnone hps.1
    · rw [if_neg hps]

/-- A NAL list every element of which leaves the state unchanged is a
no-op for the processing loop. -/
theorem processNals_const (f : MState → List Nat → MState × Bool) (s : MState) :
    ∀ ns : List (List Nat), (∀ nal ∈ ns, f s nal = (s, false)) →
      processNals f s ns = (s, false) := by
  intro ns
  induction ns with
  | nil => intro _; rfl
  | cons n ns ih =>
    intro h
    unfold processNals
    rw [h n (by simp)]
    exact ih (fun nal hm => h nal (by simp [hm]))

/-- `init_header_if_needed` touches only the sink, the write position and the
`init_header` flag. -/
theorem initHeader_preserves (s : MState) :
    (initHeaderIfNeeded s).video_track = s.video_track ∧
    (initHeaderIfNeeded s).audio_track = s.audio_track ∧
    (initHeaderIfNeeded s).send_first_random_access = s.send_first_random_access ∧
    (initHeaderIfNeeded s).duration = s.duration := by
  unfold initHeaderIfNeeded
  by_cases h : s.init_header
  · rw [if_pos h]
    exact ⟨rfl, rfl, rfl, rfl⟩
  · rw [if_neg h]
    unfold initMp4
    dsimp only
    by_cases hf : (MState.fragment s) = true
    · rw [if_neg (by simp [hf])]
      exact ⟨rfl, rfl, rfl, rfl⟩
    · rw [if_pos (by simp [hf])]
      exact ⟨rfl, rfl, rfl, rfl⟩

/-- **C10.**  Every `encode_video` call on a state with a configured AVC
video track (timescale 90000) first adds `duration * 90000 / 1000` (in `u32`
arithmetic) to the track duration and raises the movie duration to at least
the new track duration, before any NAL unit is classified: when every NAL of
the call is dropped — each nonempty, of a type other than IDR/SPS/PPS, with
either no keyframe seen yet or the SPS not yet captured — the call still
advances both durations while recording no sample and writing no bytes
beyond the lazily initialized file header. -/
theorem C10_duration_advance (s : MState) (data : List Nat) (dur : Nat)
    (t : Track) (hv : s.video_track = some t) (hc : t.codec = Codec.AVC)
    (hts : t.timescale = 90000)
    (hskip : s.send_first_random_access = false ∨ t.sps = none)
    (hnals : ∀ nal ∈ splitNalu data, nal ≠ [] ∧ ¬(nal.headD 0 &&& 0x1f = 5) ∧
      ¬(nal.headD 0 &&& 0x1f = 7) ∧ ¬(nal.headD 0 &&& 0x1f = 8)) :
    (encodeVideo s data dur).2 = false ∧
    (encodeVideo s data dur).1.video_track =
      some {t with duration := (t.duration + dur * 90000 % u32lim / 1000) % u32lim} ∧
    (t.duration + dur * 90000 % u32lim / 1000) % u32lim ≤
      (encodeVideo s data dur).1.duration ∧
    videoSamples (encodeVideo s data dur).1 = t.samples ∧
    (encodeVideo s data dur).1.sink = (initHeaderIfNeeded s).sink := by
  obtain ⟨p1, p2, p3, p4⟩ := initHeader_preserves s
  unfold encodeVideo
  dsimp only
  rw [show (initHeaderIfNeeded s).video_track = some t from p1.trans hv]
  dsimp only
  rw [hts, hc]
  dsimp only
  unfold writeAvcFrame
  rw [processNals_const _ _ (splitNalu data) (fun nal hm => by
    obtain ⟨hne, h5, h7, h8⟩ := hnals nal hm
    exact avcNalStep_skip _ _ nal hne h5 h7 h8
      { id := t.id, duration := (t.duration + dur * 90000 % u32lim / 1000) % u32lim,
        timescale := 90000, sample_rate := t.sample_rate,
        channel_count := t.channel_count, width := t.width, height := t.height,
        codec := Codec.AVC, vps := t.vps, sps := t.sps, pps := t.pps,
        dsi := t.dsi, samples := t.samples, track_type := t.track_type } rfl
      (by
        rcases hskip with hsr | hnone
        · exact Or.inl (p3.trans hsr)
        · exact Or.inr hnone))]
  refine ⟨rfl, rfl, ?_, ?_, rfl⟩
  · dsimp only
    split
    · exact Nat.le_refl _
    · omega
  · rw [videoSamples_some _ _ rfl]

/-- The C10 scenario state: a fresh non-fragmented muxer with an AVC video
track. -/
def c10State : MState := setupState false (some (640, 480, Codec.AVC)) none

/-- The C10 scenario track, as `set_video_track` builds it. -/
def c10Track : Track :=
  { id := 1, duration := 0, timescale := 90000, sample_rate := 0,
    channel_count := 0, width := 640, height := 480, codec := Codec.AVC,
    vps := none, sps := none, pps := none, dsi := none, samples := [],
    track_type := TrackType.Video }

theorem C10_duration_advance_witness :
    (encodeVideo c10State [0, 0, 0, 1, 0x41, 0x9a] 33).2 = false ∧
    (encodeVideo c10State [0, 0, 0, 1, 0x41, 0x9a] 33).1.video_track =
      some {c10Track with duration :=
        (c10Track.duration + 33 * 90000 % u32lim / 1000) % u32lim} ∧
    (c10Track.duration + 33 * 90000 % u32lim / 1000) % u32lim ≤
      (encodeVideo c10State [0, 0, 0, 1, 0x41, 0x9a] 33).1.duration ∧
    videoSamples (encodeVideo c10State [0, 0, 0, 1, 0x41, 0x9a] 33).1 =
      c10Track.samples ∧
    (encodeVideo c10State [0, 0, 0, 1, 0x41, 0x9a] 33).1.sink =
      (initHeaderIfNeeded c10State).sink :=
  C10_duration_advance c10State [0, 0, 0, 1, 0x41, 0x9a] 33 c10Track
    (by decide) (by decide) (by decide) (Or.inl (by decide)) (by decide)

/-! ## C5: the `mdat` size backpatch of `flush` -/

/-- Writing inside the existing contents does not change their length. -/
theorem writeAt_length_of_le (c : List Nat) (p : Nat) (bs : List Nat)
    (h : p + bs.length ≤ c.length) : (writeAt c p bs).length = c.length := by
  unfold writeAt
  simp [List.length_take, List.length_drop]
  omega

/-- The written bytes are found at the written offset. -/
theorem writeAt_slice (c : List Nat) (p : Nat) (bs : List Nat)
    (h : p ≤ c.length) :
    ((writeAt c p bs).drop p).take bs.length = bs := by
  unfold writeAt
  rw [show p - c.length = 0 from by omega, List.replicate_zero, List.append_nil]
  have h1 : (c.take p).length = p := by
    simp [List.length_take]
    omega
  rw [List.append_assoc, List.drop_left' h1, List.take_left' rfl]

/-- **C5.**  `flush` on a non-finalized muxer (invariantly
`write_pos = |content|`): it writes `write_pos - 32` as a big-endian `u64`
at absolute offset 40, restores the position to `write_pos`, and appends the
`moov` there, so that the final file holds the `moov` at offset `write_pos`,
has total length `write_pos + |moov|`, and stores an `mdat` size equal to
total length − 32 − `moov` size. -/
theorem C5_flush_backpatch (s : MState) (mv : List Nat)
    (hinit : s.init_header = true) (hwm : s.write_moov = false)
    (hwp : s.write_pos = s.sink.content.length) (h48 : 48 ≤ s.write_pos)
    (hmv : moovBytes s = some mv) :
    (flushM s).2 = false ∧
    ((flushM s).1.sink.content.drop 40).take 8 = be64 (s.write_pos - 32) ∧
    (flushM s).1.sink.content.drop s.write_pos = mv ∧
    (flushM s).1.sink.content.length = s.write_pos + mv.length ∧
    s.write_pos - 32 = (flushM s).1.sink.content.length - 32 - mv.length := by
  have hid : initHeaderIfNeeded s = s := by
    unfold initHeaderIfNeeded
    rw [if_pos hinit]
  have hlen1 : (writeAt s.sink.content 40 (be64 (s.write_pos - 32))).length =
      s.sink.content.length :=
    writeAt_length_of_le _ _ _ (by
      simp [be64]
      omega)
  unfold flushM
  rw [hid, if_pos (by simp [hwm])]
  unfold writeMdatSize
  dsimp only [Sink.seekTo, Sink.writeAll]
  unfold writeMoovIfNeeded
  dsimp only
  rw [if_neg (by simp [hwm])]
  rw [show moovBytes {s with
      sink := ⟨writeAt s.sink.content 40 (be64 (s.write_pos - 32)),
              s.write_pos⟩} = some mv from hmv]
  dsimp only [Sink.writeAll]
  rw [writeAt_append _ _ _ (hwp.trans hlen1.symm)]
  refine ⟨rfl, ?_, ?_, ?_, ?_⟩
  · dsimp only
    rw [List.drop_append_of_le_length (show (40 : Nat) ≤
        (writeAt s.sink.content 40 (be64 (s.write_pos - 32))).length from by
      rw [hlen1]
      omega),
      List.take_append_of_le_length (show (8 : Nat) ≤
        ((writeAt s.sink.content 40 (be64 (s.write_pos - 32))).drop 40).length from by
      simp [List.length_drop, hlen1]
      omega)]
    exact writeAt_slice s.sink.content 40 (be64 (s.write_pos - 32)) (by omega)
  · dsimp only
    exact List.drop_left' (hlen1.trans hwp.symm)
  · dsimp only
    rw [List.length_append, hlen1, ← hwp]
  · dsimp only
    rw [List.length_append, hlen1, ← hwp]
    omega

/-- The C5 scenario: a non-fragmented muxer that has received SPS, PPS and
one IDR NAL in a single call. -/
def flushScenario : MState :=
  (runCalls (setupState false (some (640, 480, Codec.AVC)) none)
    [Call.video ([0, 0, 0, 1, 0x67, 0x42, 0xC0, 0x0D] ++
      [0, 0, 0, 1, 0x68, 0xE1] ++ [0, 0, 0, 1, 0x65, 0x88]) 33]).1

theorem C5_flush_backpatch_witness :
    (flushM flushScenario).2 = false ∧
    ((flushM flushScenario).1.sink.content.drop 40).take 8 =
      be64 (flushScenario.write_pos - 32) ∧
    (flushM flushScenario).1.sink.content.drop flushScenario.write_pos =
      (moovBytes flushScenario).getD [] ∧
    (flushM flushScenario).1.sink.content.length =
      flushScenario.write_pos + ((moovBytes flushScenario).getD []).length ∧
    flushScenario.write_pos - 32 =
      (flushM flushScenario).1.sink.content.length - 32 -
        ((moovBytes flushScenario).getD []).length :=
  C5_flush_backpatch flushScenario ((moovBytes flushScenario).getD [])
    (by decide) (by decide) (by decide) (by decide) (by decide)

/-! ## C3: continuation slices are never merged -/

/-- The five-call C3 scenario: SPS, PPS, IDR, non-IDR with
`first_mb_in_slice = 0`, non-IDR with (genuine) `first_mb_in_slice = 3`. -/
def c3Calls : List Call :=
  [Call.video [0, 0, 0, 1, 0x67, 0x42, 0xC0, 0x0D] 33,
   Call.video [0, 0, 0, 1, 0x68, 0xE1] 33,
   Call.video [0, 0, 0, 1, 0x65, 0x88] 33,
   Call.video [0, 0, 0, 1, 0x41, 0x9A] 33,
   Call.video [0, 0, 0, 1, 0x41, 0x20] 33]

/-- **C3 counterexample.**  Running the specified NAL order through
`encode_video` yields three `SampleInfo` records, not two: the final non-IDR
NAL — whose genuine Exp-Golomb `first_mb_in_slice` is 3 — is still recorded
as its own sample of size `len + 4` (here 6), because `ue_bits(1)` caps
after one leading zero and always returns 0, so the continuation branch is
unreachable. -/
theorem C3_counterexample :
    (runCalls (setupState false (some (640, 480, Codec.AVC)) none) c3Calls).2 =
      false ∧
    videoSamples
        (runCalls (setupState false (some (640, 480, Codec.AVC)) none)
          c3Calls).1 =
      [⟨true, 48, 6, 2970⟩, ⟨false, 54, 6, 2970⟩, ⟨false, 60, 6, 2970⟩] ∧
    ¬(videoSamples
        (runCalls (setupState false (some (640, 480, Codec.AVC)) none)
          c3Calls).1).length = 2 := by
  decide

/-- `write_avc_frame` loop iteration capturing an SPS into an empty slot. -/
theorem avcNalStep_sps_capture (d : Nat) (s : MState) (nal : List Nat) (a : Nat)
    (t : Track) (hv : s.video_track = some t) (hsps : t.sps = none)
    (hh : nal.head? = some a) (ha : a &&& 0x1f = 7) :
    avcNalStep d s nal =
      ({s with video_track := some {t with sps := some nal}}, false) := by
  unfold avcNalStep
  rw [hh]
  dsimp only
  rw [hv]
  dsimp only
  rw [if_pos ha, if_pos hsps]

/-- `write_avc_frame` loop iteration capturing a PPS into an empty slot. -/
theorem avcNalStep_pps_capture (d : Nat) (s : MState) (nal : List Nat) (a : Nat)
    (vt vt' : Track) (hpps : vt.pps = none)
    (hvt' : vt' = {vt with pps := some nal}) (hh : nal.head? = some a)
    (ha : a &&& 0x1f = 8) :
    avcNalStep d {s with video_track := some vt} nal =
      ({s with video_track := some vt'}, false) := by
  subst hvt'
  unfold avcNalStep
  rw [hh]
  dsimp only
  rw [if_neg (by simp [ha]), if_pos ha, if_pos hpps]

/-- `write_avc_frame` loop iteration on an IDR slice with both parameter
sets captured: the keyframe flag is set and the sample is recorded. -/
theorem avcNalStep_idr_push (d : Nat) (s : MState) (nal : List Nat) (a : Nat)
    (vt vt' : Track) (x y : List Nat)
    (hsps : vt.sps = some x) (hpps : vt.pps = some y)
    (hvt' : vt' =
      {vt with
        samples := vt.samples ++
          [⟨true, s.write_pos, (nal.length % u32lim + 4) % u32lim, d⟩]})
    (hf : s.fragment = false) (hpos : s.sink.pos = s.sink.content.length)
    (hh : nal.head? = some a) (ha : a &&& 0x1f = 5) :
    avcNalStep d {s with video_track := some vt} nal =
      ({s with
          video_track := some vt',
          send_first_random_access := true,
          sink :=
            ⟨s.sink.content ++ (be32 (nal.length % u32lim) ++ nal),
             (s.sink.content ++ (be32 (nal.length % u32lim) ++ nal)).length⟩,
          write_pos := s.write_pos + nal.length + 4}, false) := by
  subst hvt'
  unfold avcNalStep
  rw [hh]
  dsimp only
  rw [if_neg (by simp [ha]), if_neg (by simp [ha]),
    if_pos (show vt.sps ≠ none ∧ vt.pps ≠ none from
      ⟨by simp [hsps], by simp [hpps]⟩)]
  rw [show (if ueBits (nal.drop 1) 0 1 ≠ 0 then SampleType.Continuation
      else if a &&& 0x1f = 5 then SampleType.RandomAccess
      else SampleType.Default) = SampleType.RandomAccess from by
    rw [ueBits_one]
    simp [ha]]
  rw [if_pos ha]
  rw [putSample_nonfrag_video
    {s with video_track := some vt, send_first_random_access := true} nal d
    SampleType.RandomAccess hf vt rfl (Or.inr rfl) hpos]
  simp

/-- `write_avc_frame` loop iteration on a non-IDR slice after the first
keyframe: the slice is always recorded as its own `Default` sample —
`ue_bits(1)` returns 0 on every input, so the continuation branch is
unreachable. -/
theorem avcNalStep_slice_push (d : Nat) (s : MState) (nal : List Nat) (a : Nat)
    (vt vt' : Track) (x y : List Nat) (c : List Nat) (wp : Nat)
    (hsps : vt.sps = some x) (hpps : vt.pps = some y)
    (hvt' : vt' =
      {vt with
        samples := vt.samples ++
          [⟨false, wp, (nal.length % u32lim + 4) % u32lim, d⟩]})
    (hf : s.fragment = false) (hh : nal.head? = some a)
    (ha5 : ¬(a &&& 0x1f = 5)) (ha7 : ¬(a &&& 0x1f = 7))
    (ha8 : ¬(a &&& 0x1f = 8)) :
    avcNalStep d
      {s with
        video_track := some vt,
        send_first_random_access := true,
        sink := ⟨c, c.length⟩,
        write_pos := wp} nal =
      ({s with
          video_track := some vt',
          send_first_random_access := true,
          sink :=
            ⟨c ++ (be32 (nal.length % u32lim) ++ nal),
             (c ++ (be32 (nal.length % u32lim) ++ nal)).length⟩,
          write_pos := wp + nal.length + 4}, false) := by
  subst hvt'
  unfold avcNalStep
  rw [hh]
  dsimp only
  rw [if_neg ha7, if_neg ha8,
    if_pos (show vt.sps ≠ none ∧ vt.pps ≠ none from
      ⟨by simp [hsps], by simp [hpps]⟩)]
  rw [show (if ueBits (nal.drop 1) 0 1 ≠ 0 then SampleType.Continuation
      else if a &&& 0x1f = 5 then SampleType.RandomAccess
      else SampleType.Default) = SampleType.Default from by
    rw [ueBits_one]
    simp [ha5]]
  rw [if_neg ha5, if_pos rfl]
  rw [putSample_nonfrag_video
    {s with
      video_track := some vt,
      send_first_random_access := true,
      sink := ⟨c, c.length⟩,
      write_pos := wp} nal d SampleType.Default hf vt rfl (Or.inl rfl) rfl]
  simp

/-- **C3.**  `write_avc_frame` on a stream that splits into SPS, PPS, IDR
and two further slice NALs — the last with a genuinely nonzero Exp-Golomb
`first_mb_in_slice` — records three samples, one per slice NAL, each of
size `len + 4`: the continuation slice is never merged into the preceding
sample, because `ue_bits(1)` returns 0 on every input. -/
theorem C3_continuation_not_merged (d : Nat) (s : MState) (t : Track)
    (data sps pps idr n1 cont : List Nat) (a1 a2 a3 a4 a5 : Nat)
    (hsplit : splitNalu data = [sps, pps, idr, n1, cont])
    (hv : s.video_track = some t) (hsps : t.sps = none) (hpps : t.pps = none)
    (hsam : t.samples = []) (hf : s.fragment = false)
    (hsr : s.send_first_random_access = false)
    (hpos : s.sink.pos = s.sink.content.length)
    (h1 : sps.head? = some a1) (ha1 : a1 &&& 0x1f = 7)
    (h2 : pps.head? = some a2) (ha2 : a2 &&& 0x1f = 8)
    (h3 : idr.head? = some a3) (ha3 : a3 &&& 0x1f = 5)
    (h4 : n1.head? = some a4) (ha4 : ¬(a4 &&& 0x1f = 5))
    (ha4b : ¬(a4 &&& 0x1f = 7)) (ha4c : ¬(a4 &&& 0x1f = 8))
    (h5 : cont.head? = some a5) (ha5 : ¬(a5 &&& 0x1f = 5))
    (ha5b : ¬(a5 &&& 0x1f = 7)) (ha5c : ¬(a5 &&& 0x1f = 8))
    (hmb : ueSpec (cont.drop 1) 0 32 ≠ 0) :
    (writeAvcFrame s data d).2 = false ∧
    videoSamples (writeAvcFrame s data d).1 =
      [⟨true, s.write_pos, (idr.length % u32lim + 4) % u32lim, d⟩,
       ⟨false, s.write_pos + idr.length + 4,
        (n1.length % u32lim + 4) % u32lim, d⟩,
       ⟨false, s.write_pos + idr.length + 4 + n1.length + 4,
        (cont.length % u32lim + 4) % u32lim, d⟩] ∧
    ¬(videoSamples (writeAvcFrame s data d).1).length = 2 := by
  have hrun : writeAvcFrame s data d =
      ({s with
          video_track := some
            {t with
              sps := some sps,
              pps := some pps,
              samples := t.samples ++
                [⟨true, s.write_pos, (idr.length % u32lim + 4) % u32lim, d⟩] ++
                [⟨false, s.write_pos + idr.length + 4,
                  (n1.length % u32lim + 4) % u32lim, d⟩] ++
                [⟨false, s.write_pos + idr.length + 4 + n1.length + 4,
                  (cont.length % u32lim + 4) % u32lim, d⟩]},
          send_first_random_access := true,
          sink :=
            ⟨s.sink.content ++ (be32 (idr.length % u32lim) ++ idr) ++
               (be32 (n1.length % u32lim) ++ n1) ++
               (be32 (cont.length % u32lim) ++ cont),
             (s.sink.content ++ (be32 (idr.length % u32lim) ++ idr) ++
               (be32 (n1.length % u32lim) ++ n1) ++
               (be32 (cont.length % u32lim) ++ cont)).length⟩,
          write_pos := s.write_pos + idr.length + 4 + n1.length + 4 +
            cont.length + 4}, false) := by
    unfold writeAvcFrame
    rw [hsplit]
    simp only [processNals]
    rw [avcNalStep_sps_capture d s sps a1 t hv hsps h1 ha1]
    dsimp only
    rw [avcNalStep_pps_capture d s pps a2 {t with sps := some sps}
      {t with sps := some sps, pps := some pps} hpps rfl h2 ha2]
    dsimp only
    rw [avcNalStep_idr_push d s idr a3
      {t with sps := some sps, pps := some pps}
      {t with
        sps := some sps,
        pps := some pps,
        samples := t.samples ++
          [⟨true, s.write_pos, (idr.length % u32lim + 4) % u32lim, d⟩]}
      sps pps rfl rfl rfl hf hpos h3 ha3]
    dsimp only
    rw [avcNalStep_slice_push d s n1 a4
      {t with
        sps := some sps,
        pps := some pps,
        samples := t.samples ++
          [⟨true, s.write_pos, (idr.length % u32lim + 4) % u32lim, d⟩]}
      {t with
        sps := some sps,
        pps := some pps,
        samples := t.samples ++
          [⟨true, s.write_pos, (idr.length % u32lim + 4) % u32lim, d⟩] ++
          [⟨false, s.write_pos + idr.length + 4,
            (n1.length % u32lim + 4) % u32lim, d⟩]}
      sps pps (s.sink.content ++ (be32 (idr.length % u32lim) ++ idr))
      (s.write_pos + idr.length + 4) rfl rfl rfl hf h4 ha4 ha4b ha4c]
    dsimp only
    rw [avcNalStep_slice_push d s cont a5
      {t with
        sps := some sps,
        pps := some pps,
        samples := t.samples ++
          [⟨true, s.write_pos, (idr.length % u32lim + 4) % u32lim, d⟩] ++
          [⟨false, s.write_pos + idr.length + 4,
            (n1.length % u32lim + 4) % u32lim, d⟩]}
      {t with
        sps := some sps,
        pps := some pps,
        samples := t.samples ++
          [⟨true, s.write_pos, (idr.length % u32lim + 4) % u32lim, d⟩] ++
          [⟨false, s.write_pos + idr.length + 4,
            (n1.length % u32lim + 4) % u32lim, d⟩] ++
          [⟨false, s.write_pos + idr.length + 4 + n1.length + 4,
            (cont.length % u32lim + 4) % u32lim, d⟩]}
      sps pps
      (s.sink.content ++ (be32 (idr.length % u32lim) ++ idr) ++
        (be32 (n1.length % u32lim) ++ n1))
      (s.write_pos + idr.length + 4 + n1.length + 4) rfl rfl rfl hf h5 ha5
      ha5b ha5c]
  have hvs : videoSamples (writeAvcFrame s data d).1 =
      [⟨true, s.write_pos, (idr.length % u32lim + 4) % u32lim, d⟩,
       ⟨false, s.write_pos + idr.length + 4,
        (n1.length % u32lim + 4) % u32lim, d⟩,
       ⟨false, s.write_pos + idr.length + 4 + n1.length + 4,
        (cont.length % u32lim + 4) % u32lim, d⟩] := by
    rw [hrun, videoSamples_some _ _ rfl, hsam]
    simp
  refine ⟨by rw [hrun], hvs, by rw [hvs]; simp⟩

/-- The single-call C3 data stream: the five NALs of `c3Calls` in one
buffer. -/
def c3Data : List Nat :=
  [0, 0, 0, 1, 0x67, 0x42, 0xC0, 0x0D, 0, 0, 0, 1, 0x68, 0xE1,
   0, 0, 0, 1, 0x65, 0x88, 0, 0, 0, 1, 0x41, 0x9A, 0, 0, 0, 1, 0x41, 0x20]

theorem C3_continuation_not_merged_witness :
    (writeAvcFrame (setupState false (some (640, 480, Codec.AVC)) none)
        c3Data 2970).2 = false ∧
    videoSamples
        (writeAvcFrame (setupState false (some (640, 480, Codec.AVC)) none)
          c3Data 2970).1 =
      [⟨true, 0, 6, 2970⟩, ⟨false, 6, 6, 2970⟩, ⟨false, 12, 6, 2970⟩] ∧
    ¬(videoSamples
        (writeAvcFrame (setupState false (some (640, 480, Codec.AVC)) none)
          c3Data 2970).1).length = 2 :=
  C3_continuation_not_merged 2970
    (setupState false (some (640, 480, Codec.AVC)) none)
    { id := 1, duration := 0, timescale := 90000, sample_rate := 0,
      channel_count := 0, width := 640, height := 480, codec := Codec.AVC,
      vps := none, sps := none, pps := none, dsi := none, samples := [],
      track_type := TrackType.Video }
    c3Data [0x67, 0x42, 0xC0, 0x0D] [0x68, 0xE1] [0x65, 0x88] [0x41, 0x9A]
    [0x41, 0x20] 0x67 0x68 0x65 0x41 0x41
    (by decide) (by decide) (by decide) (by decide) (by decide) (by decide)
    (by decide) (by decide) (by decide) (by decide) (by decide) (by decide)
    (by decide) (by decide) (by decide) (by decide) (by decide) (by decide)
    (by decide) (by decide) (by decide) (by decide) (by decide)
